import Mathlib

/-!
Verification of the contract field-extraction engine of the proptech
contracts platform (source: src/ia-fastapi/app/main.py, plus the upload
gate in src/backend-flask/app.py).

The Python code is regex-driven.  We embed it shallowly: texts are lists
of characters, every Python regular expression is transcribed into a
small executable regular-expression abstract syntax (RE below) with a
backtracking matcher that follows Python re semantics (leftmost search,
greedy and lazy bounded repetition, alternation preferring the left
branch, word boundaries, capture groups, IGNORECASE).  Fallible Python
operations (float conversion, datetime.fromisoformat) are modelled with
Option and Except.
-/

set_option maxRecDepth 20000

deriving instance DecidableEq for Except

namespace Proptech

/-- Python str whitespace for the regex class backslash-s and str.strip,
restricted to the characters that occur in this code base (ASCII
whitespace plus the no-break space U+00A0). -/
def pySpace (c : Char) : Bool :=
  c = ' ' || c = '\t' || c = '\n' || c = '\r' || c = '\x0b' || c = '\x0c' || c = '\u00A0'

/-- Spanish lowercase accented letters used by the source's patterns. -/
def spanishLower (c : Char) : Bool :=
  c = 'á' || c = 'é' || c = 'í' || c = 'ó' || c = 'ú' || c = 'ñ' || c = 'ü'

/-- Spanish uppercase accented letters used by the source's patterns. -/
def spanishUpper (c : Char) : Bool :=
  c = 'Á' || c = 'É' || c = 'Í' || c = 'Ó' || c = 'Ú' || c = 'Ñ' || c = 'Ü'

/-- Python str.lower restricted to ASCII plus the Spanish accented letters. -/
def pyLower (c : Char) : Char :=
  if c = 'Á' then 'á' else if c = 'É' then 'é' else if c = 'Í' then 'í' else
  if c = 'Ó' then 'ó' else if c = 'Ú' then 'ú' else if c = 'Ñ' then 'ñ' else
  if c = 'Ü' then 'ü' else c.toLower

/-- Python str.upper restricted to ASCII plus the Spanish accented letters. -/
def pyUpper (c : Char) : Char :=
  if c = 'á' then 'Á' else if c = 'é' then 'É' else if c = 'í' then 'Í' else
  if c = 'ó' then 'Ó' else if c = 'ú' then 'Ú' else if c = 'ñ' then 'Ñ' else
  if c = 'ü' then 'Ü' else c.toUpper

/-- Python regex word character (backslash-w) for the alphabet occurring in
the contracts handled here: ASCII alphanumerics, underscore, and the
Spanish accented letters (all Unicode letters are word characters in
Python; only these occur in the texts and patterns of this program). -/
def isWordChar (c : Char) : Bool :=
  c.isAlphanum || c = '_' || spanishLower c || spanishUpper c

/-- Lowercase a list of characters like Python str.lower. -/
def pyLowerL (s : List Char) : List Char := s.map pyLower

/-- Python substring prefix test (str.startswith). -/
def startsL : List Char → List Char → Bool
  | [], _ => true
  | _ :: _, [] => false
  | p :: ps, c :: cs => p = c && startsL ps cs

/-- Python substring membership test (the in operator on str). -/
def containsL (pat : List Char) : List Char → Bool
  | [] => startsL pat []
  | s@(_ :: rest) => startsL pat s || containsL pat rest

/-- Python str.endswith. -/
def endsL (suf : List Char) (s : List Char) : Bool :=
  startsL suf.reverse s.reverse

/-- Strip characters satisfying p from both ends (Python str.strip). -/
def stripChars (p : Char → Bool) (s : List Char) : List Char :=
  ((s.dropWhile p).reverse.dropWhile p).reverse

/-- Replace every maximal run of regex whitespace by one space: the effect
of re.sub on the pattern backslash-s-plus with replacement a single space. -/
def collapseWsAux : List Char → Bool → List Char
  | [], _ => []
  | c :: rest, prevSpace =>
    if pySpace c then
      if prevSpace then collapseWsAux rest true
      else ' ' :: collapseWsAux rest true
    else c :: collapseWsAux rest false

/-- Digits of a decimal string to a natural number (Python int on a digit
string). -/
def digitsToNat (s : List Char) : Nat :=
  s.foldl (fun a c => a * 10 + (c.toNat - 48)) 0

/-- Decimal digits of a natural number, by bounded recursion (enough fuel
for every number produced by this program). -/
def natDigitsAux : Nat → Nat → List Char
  | 0, _ => []
  | fuel + 1, n =>
    if n = 0 then [] else natDigitsAux fuel (n / 10) ++ [Char.ofNat (48 + n % 10)]

/-- Decimal rendering of a natural number. -/
def natDigits (n : Nat) : List Char :=
  if n = 0 then ['0'] else natDigitsAux 8 n

/-- Two-digit zero padding, the Python format spec 02d. -/
def pad2 (n : Nat) : List Char :=
  if n < 10 then '0' :: natDigits n else natDigits n

/-- Four-digit zero padding for years (date.isoformat). -/
def pad4 (n : Nat) : List Char :=
  if n < 10 then '0' :: '0' :: '0' :: natDigits n
  else if n < 100 then '0' :: '0' :: natDigits n
  else if n < 1000 then '0' :: natDigits n
  else natDigits n

/-! The regular-expression abstract syntax and its backtracking matcher. -/

/-- Regular-expression syntax: empty, character class, sequence,
alternation (left preferred), bounded repetition (greedy or lazy, hi =
none means unbounded), capture group, word boundary, beginning of string. -/
inductive RE where
  | eps
  | cls (p : Char → Bool)
  | seq (a b : RE)
  | alt (a b : RE)
  | rep (a : RE) (lo : Nat) (hi : Option Nat) (lz : Bool)
  | grp (n : Nat) (a : RE)
  | wb
  | bos

/-- Capture-group records: group index, start position, end position. -/
abbrev Groups := List (Nat × Nat × Nat)

/-- Backtracking matcher in continuation style.  State: remaining input,
previous character (for word boundaries), absolute position, captured
groups.  The continuation receives the state after the node.  Fuel bounds
the activation-chain depth; it is chosen large enough below that it is
never exhausted on the inputs considered. -/
def mat : Nat → RE → List Char → Option Char → Nat → Groups →
    (List Char → Option Char → Nat → Groups → Option (Nat × Groups)) →
    Option (Nat × Groups)
  | 0, _, _, _, _, _, _ => none
  | fuel + 1, re, rem, prev, pos, g, k =>
    match re with
    | .eps => k rem prev pos g
    | .bos => if pos = 0 then k rem prev pos g else none
    | .wb =>
        let a := match prev with | some c => isWordChar c | none => false
        let b := match rem with | c :: _ => isWordChar c | [] => false
        if a ≠ b then k rem prev pos g else none
    | .cls p =>
        match rem with
        | c :: rest => if p c then k rest (some c) (pos + 1) g else none
        | [] => none
    | .seq x y =>
        mat fuel x rem prev pos g (fun r pv q h => mat fuel y r pv q h k)
    | .alt x y =>
        match mat fuel x rem prev pos g k with
        | some res => some res
        | none => mat fuel y rem prev pos g k
    | .grp n x =>
        mat fuel x rem prev pos g (fun r pv q h => k r pv q ((n, pos, q) :: h))
    | .rep x lo hi lz =>
        match lo with
        | lo' + 1 =>
            mat fuel x rem prev pos g (fun r pv q h =>
              mat fuel (.rep x lo' (hi.map (fun m => m - 1)) lz) r pv q h k)
        | 0 =>
          match hi with
          | some 0 => k rem prev pos g
          | _ =>
            if lz then
              match k rem prev pos g with
              | some res => some res
              | none =>
                  mat fuel x rem prev pos g (fun r pv q h =>
                    if q = pos then none
                    else mat fuel (.rep x 0 (hi.map (fun m => m - 1)) lz) r pv q h k)
            else
              match mat fuel x rem prev pos g (fun r pv q h =>
                  if q = pos then none
                  else mat fuel (.rep x 0 (hi.map (fun m => m - 1)) lz) r pv q h k) with
              | some res => some res
              | none => k rem prev pos g

/-- Fuel bound for one anchored match attempt. -/
def fuelFor (inp : List Char) : Nat := 2 * inp.length + 400

/-- A match: start position, end position, captured groups. -/
structure MRes where
  mstart : Nat
  mend : Nat
  groups : Groups
deriving DecidableEq

/-- Leftmost search (re.search): try an anchored match at each successive
start position. -/
def searchFrom : Nat → RE → List Char → Option Char → Nat → List Char → Option MRes
  | 0, _, _, _, _, _ => none
  | steps + 1, re, rem, prev, pos, inp =>
    match mat (fuelFor inp) re rem prev pos [] (fun _ _ q h => some (q, h)) with
    | some (q, h) => some ⟨pos, q, h⟩
    | none =>
      match rem with
      | [] => none
      | c :: rest => searchFrom steps re rest (some c) (pos + 1) inp

/-- re.search on a whole input. -/
def research (re : RE) (inp : List Char) : Option MRes :=
  searchFrom (inp.length + 1) re inp none 0 inp

/-- Advance n characters, tracking the previous character. -/
def advance : Nat → List Char → Option Char → (List Char × Option Char)
  | 0, rem, prev => (rem, prev)
  | _ + 1, [], prev => ([], prev)
  | n + 1, c :: rest, _ => advance n rest (some c)

/-- re.finditer: non-overlapping leftmost matches, resuming after each
match (or one character further for an empty match). -/
def finditerFrom : Nat → RE → List Char → Option Char → Nat → List Char → List MRes
  | 0, _, _, _, _, _ => []
  | steps + 1, re, rem, prev, pos, inp =>
    match mat (fuelFor inp) re rem prev pos [] (fun _ _ q h => some (q, h)) with
    | some (q, h) =>
        if q > pos then
          let st := advance (q - pos) rem prev
          ⟨pos, q, h⟩ :: finditerFrom steps re st.1 st.2 q inp
        else
          match rem with
          | [] => [⟨pos, q, h⟩]
          | c :: rest => ⟨pos, q, h⟩ :: finditerFrom steps re rest (some c) (pos + 1) inp
    | none =>
      match rem with
      | [] => []
      | c :: rest => finditerFrom steps re rest (some c) (pos + 1) inp

/-- re.finditer on a whole input. -/
def refinditer (re : RE) (inp : List Char) : List MRes :=
  finditerFrom (2 * inp.length + 2) re inp none 0 inp

/-- Look up a capture group (the most recent record for that index, as in
Python where a later repetition of a group overwrites the earlier one). -/
def grpLookup (g : Groups) (n : Nat) : Option (Nat × Nat) :=
  match g with
  | [] => none
  | (m, a, b) :: rest => if m = n then some (a, b) else grpLookup rest n

/-- Slice of the input between two positions. -/
def sliceL (inp : List Char) (a b : Nat) : List Char :=
  (inp.drop a).take (b - a)

/-- Text of a capture group. -/
def grpStr (inp : List Char) (g : Groups) (n : Nat) : Option (List Char) :=
  (grpLookup g n).map (fun ab => sliceL inp ab.1 ab.2)

/-- Highest group index recorded in a match (Python m.lastindex, with 0
standing for Python None). -/
def lastIndex (g : Groups) : Nat :=
  g.foldl (fun acc x => max acc x.1) 0

/-! Pattern-building helpers.  All searches in the source use
re.IGNORECASE, so literal characters match case-insensitively. -/

/-- One literal character, case-insensitive (re.IGNORECASE). -/
def chI (c : Char) : RE := .cls (fun x => pyLower x = pyLower c)

/-- Case-insensitive literal word. -/
def litI (s : List Char) : RE :=
  s.foldr (fun c r => .seq (chI c) r) .eps

/-- Sequence of pattern pieces. -/
def catR (l : List RE) : RE := l.foldr .seq .eps

/-- Alternation of a nonempty list of pieces, preferring earlier entries. -/
def altR (l : List RE) : RE :=
  match l with
  | [] => .eps
  | [x] => x
  | x :: xs => .alt x (altR xs)

/-- The regex class backslash-s. -/
def wsc : RE := .cls pySpace

/-- backslash-s-plus (greedy). -/
def wsP : RE := .rep wsc 1 none false

/-- backslash-s-star (greedy). -/
def wsS : RE := .rep wsc 0 none false

/-- A digit (backslash-d). -/
def digc : RE := .cls Char.isDigit

/-- Bounded digit repetition. -/
def digs (lo hi : Nat) : RE := .rep digc lo (some hi) false

/-- The dot under re.DOTALL: any character. -/
def adot : RE := .cls (fun _ => true)

/-- The dot without DOTALL: any character except a newline. -/
def ndot : RE := .cls (fun c => c ≠ '\n')

/-- A lazy bounded gap: dot with counted repetition and a question mark,
under DOTALL. -/
def lazyGap (lo hi : Nat) : RE := .rep adot lo (some hi) true

/-- Lazy dot-plus under DOTALL. -/
def lazyPlus : RE := .rep adot 1 none true

/-- Lazy dot-star under DOTALL. -/
def lazyStar : RE := .rep adot 0 none true

/-- Greedy question mark. -/
def optR (x : RE) : RE := .rep x 0 (some 1) false

/-- One literal character, case-sensitive, for the flag-less patterns. -/
def chS (c : Char) : RE := .cls (fun x => x = c)

/-- Case-sensitive literal word. -/
def litS (s : List Char) : RE :=
  s.foldr (fun c r => .seq (chS c) r) .eps


/-! Embedding of the source's pure text utilities (main.py). -/

/-- Source normalize: replace no-break spaces by spaces, collapse every
whitespace run to one space, strip.  (List form.) -/
def normalizeL (s : List Char) : List Char :=
  stripChars pySpace
    (collapseWsAux (s.map (fun c => if c = '\u00A0' then ' ' else c)) false)

/-- Source normalize on String values. -/
def normalize (s : String) : String := String.mk (normalizeL s.data)

/-- Split a character list at the first dot, if any. -/
def splitDot : List Char → List Char × Option (List Char)
  | [] => ([], none)
  | '.' :: rest => ([], some rest)
  | c :: rest =>
    let r := splitDot rest
    (c :: r.1, r.2)

/-- Python float() restricted to the strings this program can pass to it:
digit characters and dots (anything else, a second dot, or an empty
string raises ValueError, modelled as none). -/
def pyFloat (s : List Char) : Option Rat :=
  let p := splitDot s
  match p.2 with
  | none =>
      if s ≠ [] ∧ s.all Char.isDigit then some (digitsToNat s : Rat) else none
  | some fp =>
      if p.1.all Char.isDigit ∧ fp.all Char.isDigit ∧ ¬(p.1 = [] ∧ fp = []) then
        some ((digitsToNat p.1 : Rat) + (digitsToNat fp : Rat) / ((10 : Rat) ^ fp.length))
      else none

/-- The numeric conversion applied to every anchored amount capture in
detect_amount_currency: float(num_raw.replace(".", "").replace(",", ".")). -/
def pyAmountNum (s : List Char) : Option Rat :=
  pyFloat ((s.filter (fun c => c ≠ '.')).map (fun c => if c = ',' then '.' else c))

/-- The MONTHS table of Spanish month names. -/
def MONTHS : List (List Char × List Char) := [
  (("enero").data, ("01").data),
  (("febrero").data, ("02").data),
  (("marzo").data, ("03").data),
  (("abril").data, ("04").data),
  (("mayo").data, ("05").data),
  (("junio").data, ("06").data),
  (("julio").data, ("07").data),
  (("agosto").data, ("08").data),
  (("septiembre").data, ("09").data),
  (("setiembre").data, ("09").data),
  (("octubre").data, ("10").data),
  (("noviembre").data, ("11").data),
  (("diciembre").data, ("12").data)]

/-- MONTHS.get. -/
def monthsGet (m : List Char) : Option (List Char) :=
  (MONTHS.find? (fun p => p.1 == m)).map (fun p => p.2)

/-! Embedding of the date arithmetic (datetime/calendar). -/

/-- A calendar date as in datetime.date. -/
structure PyDate where
  year : Nat
  month : Nat
  day : Nat
deriving DecidableEq

/-- calendar.isleap. -/
def isleap (y : Nat) : Bool :=
  y % 4 = 0 && (y % 100 ≠ 0 || y % 400 = 0)

/-- Number of days of a month: calendar.monthrange(y, m)[1]. -/
def monthrange (y m : Nat) : Nat :=
  if m = 2 then (if isleap y then 29 else 28)
  else if m = 4 || m = 6 || m = 9 || m = 11 then 30
  else 31

/-- Validity of a date, as enforced by the datetime.date constructor:
MINYEAR 1 to MAXYEAR 9999, month 1 to 12, day within the month. -/
def validDate (d : PyDate) : Bool :=
  1 ≤ d.year && d.year ≤ 9999 && 1 ≤ d.month && d.month ≤ 12 && 1 ≤ d.day &&
    d.day ≤ monthrange d.year d.month

/-- The datetime.date constructor: validates the year against MINYEAR 1
and MAXYEAR 9999, the month against 1 to 12, and the day against the
month length, raising ValueError (Except.error) otherwise. -/
def date_mk (y m d : Nat) : Except String PyDate :=
  if 1 ≤ y ∧ y ≤ 9999 then
    if 1 ≤ m ∧ m ≤ 12 then
      if 1 ≤ d ∧ d ≤ monthrange y m then Except.ok ⟨y, m, d⟩
      else Except.error ("day is out of range for month")
    else Except.error ("month must be in 1..12")
  else Except.error ("year is out of range")

/-- Source _add_months: calendar month arithmetic with the day clamped to
the last day of the target month; the final date(y, m, d) call raises
ValueError when the target year passes MAXYEAR 9999. -/
def add_months (d : PyDate) (months : Nat) : Except String PyDate :=
  let y := d.year + (d.month - 1 + months) / 12
  let m := (d.month - 1 + months) % 12 + 1
  let last_day := monthrange y m
  date_mk y m (min d.day last_day)

/-- Source _iso_to_date: datetime.fromisoformat(iso).date(), which raises
ValueError (modelled as Except.error) on a malformed string or, through
the date constructor, on an out-of-range year, month or day. -/
def iso_to_date (s : List Char) : Except String PyDate :=
  match s with
  | [y1, y2, y3, y4, h1, m1, m2, h2, d1, d2] =>
    if y1.isDigit && y2.isDigit && y3.isDigit && y4.isDigit && h1 = '-' &&
       m1.isDigit && m2.isDigit && h2 = '-' && d1.isDigit && d2.isDigit then
      date_mk (digitsToNat [y1, y2, y3, y4]) (digitsToNat [m1, m2]) (digitsToNat [d1, d2])
    else Except.error ("Invalid isoformat string")
  | _ => Except.error ("Invalid isoformat string")

/-- date.isoformat. -/
def isoformat (d : PyDate) : List Char :=
  pad4 d.year ++ '-' :: (pad2 d.month ++ '-' :: pad2 d.day)

/-! Embedding of the date-string grammars of _parse_ddmmyyyy and
_parse_text_date, and of detect_dates. -/

/-- The class of the two numeric date separators, slash and hyphen. -/
def sepCls : RE := .cls (fun c => c = '/' || c = '-')

/-- Numeric date shape without captures: one-or-two digits, separator,
one-or-two digits, separator, four digits. -/
def ddmmyyyyRE : RE := catR [digs 1 2, sepCls, digs 1 2, sepCls, digs 4 4]

/-- The _parse_ddmmyyyy pattern, with its three captures and boundaries. -/
def dateNumG : RE :=
  catR [.wb, .grp 1 (digs 1 2), sepCls, .grp 2 (digs 1 2), sepCls, .grp 3 (digs 4 4), .wb]

/-- The f-string of _parse_ddmmyyyy and the signing-date branch: the raw
four-digit year capture, then zero-padded month and day numbers. -/
def fmtNumDate (yy : List Char) (mm dd : Nat) : List Char :=
  yy ++ '-' :: (pad2 mm ++ '-' :: pad2 dd)

/-- Source _parse_ddmmyyyy. -/
def parse_ddmmyyyy (s : List Char) : Option (List Char) :=
  match research dateNumG s with
  | none => none
  | some m =>
    match grpStr s m.groups 1, grpStr s m.groups 2, grpStr s m.groups 3 with
    | some dd, some mm, some yy => some (fmtNumDate yy (digitsToNat mm) (digitsToNat dd))
    | _, _, _ => none

/-- The month-name character class of the source under IGNORECASE
(ASCII letters and the accented vowels plus enye, either case). -/
def monthLetter (c : Char) : Bool :=
  let l := pyLower c
  ('a' ≤ l && l ≤ 'z') || l = 'á' || l = 'é' || l = 'í' || l = 'ó' || l = 'ú' || l = 'ñ'

/-- Month-name letters as a class. -/
def monthCls : RE := .cls monthLetter

/-- The i-or-i-acute class in the source's date words. -/
def iiCls : RE := .cls (fun c => pyLower c = 'i' || pyLower c = 'í')

/-- The _parse_text_date pattern: day, optional ordinal sign, de,
month name, de or del, four-digit year. -/
def textDateRE : RE :=
  catR [.wb, .grp 1 (digs 1 2), wsS, optR (altR [chI '°', chI 'º']), wsP,
    litI (("de").data), wsP, .grp 2 (.rep monthCls 1 none false), wsP,
    altR [litI (("del").data), litI (("de").data)], wsP, .grp 3 (digs 4 4), .wb]

/-- The f-string of _parse_text_date: year capture, month string from the
MONTHS table, zero-padded day number. -/
def fmtTextDate (yy : List Char) (mm : List Char) (dd : Nat) : List Char :=
  yy ++ '-' :: (mm ++ '-' :: pad2 dd)

/-- Source _parse_text_date. -/
def parse_text_date (s : List Char) : Option (List Char) :=
  match research textDateRE s with
  | none => none
  | some m =>
    match grpStr s m.groups 1, grpStr s m.groups 2, grpStr s m.groups 3 with
    | some dd, some mon, some yy =>
      match monthsGet (pyLowerL mon) with
      | none => none
      | some mm => some (fmtTextDate yy mm (digitsToNat dd))
    | _, _, _ => none

/-- detect_dates priority-1 pattern: comenzando el DATE, lazy gap of at
most 200, finalizando el DATE. -/
def datesPat1 : RE :=
  catR [.wb, litI (("comenzando").data), wsP, litI (("el").data), wsP,
    .grp 1 ddmmyyyyRE, lazyGap 0 200, .wb,
    litI (("finalizando").data), wsP, litI (("el").data), wsP, .grp 2 ddmmyyyyRE, .wb]

/-- Character class excluding comma, semicolon and newline. -/
def notCSN : RE := .cls (fun c => c ≠ ',' && c ≠ ';' && c ≠ '\n')

/-- detect_dates priority-2 pattern: a partir del dia CAPTURE, lazy gap of
at most 260, el dia CAPTURE. -/
def datesPat2 : RE :=
  catR [.wb, litI (("a").data), wsP, litI (("partir").data), wsP, litI (("del").data), wsP,
    chI 'd', iiCls, chI 'a', wsP, .grp 1 (.rep notCSN 0 (some 80) false),
    lazyGap 0 260, .wb, litI (("el").data), wsP,
    chI 'd', iiCls, chI 'a', wsP, .grp 2 (.rep notCSN 0 (some 80) false), .wb]

/-- detect_dates explicit numeric start pattern. -/
def startPat3 : RE :=
  catR [.wb,
    .grp 1 (altR [litI (("inicia").data), litI (("comienza").data),
      catR [litI (("a").data), wsP, litI (("partir").data), wsP, litI (("del").data)]]),
    .wb, lazyGap 0 120, .grp 2 ddmmyyyyRE]

/-- detect_dates explicit numeric end pattern. -/
def endPat3 : RE :=
  catR [.wb,
    .grp 1 (altR [litI (("finaliza").data), litI (("termina").data),
      litI (("vence").data), litI (("hasta").data)]),
    .wb, lazyGap 0 120, .grp 2 ddmmyyyyRE]

/-- detect_dates signing-date pattern: N dias del mes de MONTH de YEAR. -/
def signedPat : RE :=
  catR [.wb, .grp 1 (digs 1 2), wsP, chI 'd', iiCls, chI 'a', optR (chI 's'), wsP,
    litI (("del").data), wsP, litI (("mes").data), wsP, litI (("de").data), wsP,
    .grp 2 (.rep monthCls 1 none false), wsP, litI (("de").data), wsP,
    .grp 3 (digs 4 4), .wb]

/-- detect_dates lease-term pattern: plazo de, an optional spelled-out
number, optional parenthesis, one-or-two digits, optional close
parenthesis, meses or anios. -/
def plazoPat : RE :=
  catR [.wb, litI (("plazo").data), wsP, litI (("de").data), wsP,
    optR (catR [.rep monthCls 1 none false, wsS]),
    optR (chI '('), wsS, .grp 1 (digs 1 2), wsS, optR (chI ')'), wsS,
    .grp 2 (altR [litI (("meses").data), litI (("años").data)]), .wb]

/-- detect_dates step 3, explicit numeric start clause. -/
def dates_start3 (t : List Char) : Option (List Char) :=
  match research startPat3 t with
  | some m => parse_ddmmyyyy ((grpStr t m.groups 2).getD [])
  | none => none

/-- detect_dates step 3, explicit numeric end clause. -/
def dates_end3 (t : List Char) : Option (List Char) :=
  match research endPat3 t with
  | some m => parse_ddmmyyyy ((grpStr t m.groups 2).getD [])
  | none => none

/-- detect_dates step 4, the signing-date clause. -/
def dates_signed (t : List Char) : Option (List Char) :=
  match research signedPat t with
  | some m =>
    match monthsGet (pyLowerL ((grpStr t m.groups 2).getD [])) with
    | some mm =>
        some (fmtTextDate ((grpStr t m.groups 3).getD []) mm
          (digitsToNat ((grpStr t m.groups 1).getD [])))
    | none => none
  | none => none

/-- The term length in months from a plazo match: the captured number,
times 12 when the captured unit starts with anio. -/
def term_months (t : List Char) (pm : MRes) : Nat :=
  let n := digitsToNat ((grpStr t pm.groups 1).getD [])
  let unit := pyLowerL ((grpStr t pm.groups 2).getD [])
  if startsL (("año").data) unit then n * 12 else n

/-- detect_dates step 4, the lease-term end computation from a resolved
start: no term clause leaves the end null; otherwise _iso_to_date and
_add_months run, either of which can raise. -/
def dates_term_end (t : List Char) (s : List Char) : Except String (Option (List Char)) :=
  match research plazoPat t with
  | none => Except.ok none
  | some pm =>
    match iso_to_date s with
    | Except.error e => Except.error e
    | Except.ok d0 =>
      match add_months d0 (term_months t pm) with
      | Except.error e => Except.error e
      | Except.ok d1 => Except.ok (some (isoformat d1))

/-- Source detect_dates.  Pure regex misses give none for a bound; the
priority-4 branch calls _iso_to_date and _add_months on the start string,
either of which can raise (Except.error), exactly as in the source. -/
def detect_dates (text : String) : Except String (Option (List Char) × Option (List Char)) :=
  let t := text.data
  match research datesPat1 t with
  | some m =>
      Except.ok (parse_ddmmyyyy ((grpStr t m.groups 1).getD []),
                 parse_ddmmyyyy ((grpStr t m.groups 2).getD []))
  | none =>
  match research datesPat2 t with
  | some m =>
      let sraw := (grpStr t m.groups 1).getD []
      let eraw := (grpStr t m.groups 2).getD []
      let start := match parse_text_date sraw with
        | some v => some v
        | none => parse_ddmmyyyy sraw
      let endv := match parse_text_date eraw with
        | some v => some v
        | none => parse_ddmmyyyy eraw
      Except.ok (start, endv)
  | none =>
      let start0 := dates_start3 t
      let end0 := dates_end3 t
      let signed := dates_signed t
      let start := match start0 with
        | some s => some s
        | none => signed
      match end0, start with
      | some e, _ => Except.ok (start, some e)
      | none, none => Except.ok (none, none)
      | none, some s =>
        match dates_term_end t s with
        | Except.error e => Except.error e
        | Except.ok endv => Except.ok (some s, endv)


/-! Embedding of detect_amount_currency. -/

/-- The amount character class: digits, dot, comma. -/
def numCls : RE := .cls (fun c => c.isDigit || c = '.' || c = ',')

/-- One-or-more amount characters (greedy). -/
def numPlus : RE := .rep numCls 1 none false

/-- The rent-anchor alternation common to all six amount patterns:
alquiler mensual, canon locativo, precio del alquiler, valor mensual,
as capture group 1 between word boundaries. -/
def amountAnchor : RE :=
  catR [.wb,
    .grp 1 (altR [
      catR [litI (("alquiler").data), wsP, litI (("mensual").data)],
      catR [litI (("canon").data), wsP, litI (("locativo").data)],
      catR [litI (("precio").data), wsP, litI (("del").data), wsP, litI (("alquiler").data)],
      catR [litI (("valor").data), wsP, litI (("mensual").data)]]),
    .wb]

/-- Amount pattern 1: anchor, lazy gap up to 180, parenthesized dollar
amount. -/
def amountPat1 : RE :=
  catR [amountAnchor, lazyGap 0 180,
    chI '(', wsS, chI '$', wsS, .grp 2 numPlus, wsS, chI ')']

/-- Amount pattern 2: anchor, lazy gap up to 120, dollar amount. -/
def amountPat2 : RE :=
  catR [amountAnchor, lazyGap 0 120, chI '$', wsS, .grp 2 numPlus]

/-- Amount pattern 3: anchor, gap, the word pesos, gap, parenthesized
dollar amount. -/
def amountPat3 : RE :=
  catR [amountAnchor, lazyGap 0 180, .wb, litI (("pesos").data), .wb, lazyGap 0 60,
    chI '(', wsS, chI '$', wsS, .grp 2 numPlus, wsS, chI ')']

/-- Amount pattern 4: anchor, gap, the word pesos, gap, bare number. -/
def amountPat4 : RE :=
  catR [amountAnchor, lazyGap 0 120, .wb, litI (("pesos").data), .wb, lazyGap 0 40,
    .grp 2 numPlus]

/-- The USD token alternation: USD or U-dollar-S. -/
def usdTok : RE := altR [litI (("USD").data), catR [chI 'U', chI '$', chI 'S']]

/-- Amount pattern 5 (USD): anchor, gap, USD token, then number. -/
def amountPat5 : RE :=
  catR [amountAnchor, lazyGap 0 180, .wb, .grp 2 usdTok, .wb, wsS, .grp 3 numPlus]

/-- Amount pattern 6 (USD): anchor, gap, number, then USD token. -/
def amountPat6 : RE :=
  catR [amountAnchor, lazyGap 0 180, .grp 2 numPlus, wsS, .wb, .grp 3 usdTok, .wb]

/-- The ordered pattern list of detect_amount_currency with its currency
tags. -/
def amountPatterns : List (RE × String) := [
  (amountPat1, "ARS"), (amountPat2, "ARS"), (amountPat3, "ARS"),
  (amountPat4, "ARS"), (amountPat5, "USD"), (amountPat6, "USD")]

/-- The decoy pattern: multa, penalidad, deposito (either o), garantia
(either i), each between word boundaries. -/
def decoyRE : RE :=
  altR [
    catR [.wb, litI (("multa").data), .wb],
    catR [.wb, litI (("penalidad").data), .wb],
    catR [.wb, litI (("dep").data), .cls (fun c => pyLower c = 'o' || pyLower c = 'ó'),
      litI (("sito").data), .wb],
    catR [.wb, litI (("garant").data), .cls (fun c => pyLower c = 'i' || pyLower c = 'í'),
      litI (("a").data), .wb]]

/-- An amount candidate: score, numeric amount, currency tag. -/
structure Cand where
  score : Nat
  amount : Rat
  currency : String
deriving DecidableEq

/-- Candidate from one match of one amount pattern: the matched window
(group 0) is lowercased and searched for a decoy keyword (penalty 6 on a
base score of 10); the number capture is chosen by lastindex exactly as
in the source, and converted with float(), whose ValueError is an
Except.error.  A candidate whose number capture is absent is skipped
(Except.ok none). -/
def candFrom (t : List Char) (cur : String) (m : MRes) : Except String (Option Cand) :=
  let chunk := pyLowerL (sliceL t m.mstart m.mend)
  let penalty : Nat := if (research decoyRE chunk).isSome then 6 else 0
  let score := 10 - penalty
  let num_raw : Option (List Char) :=
    if cur = "USD" then
      if lastIndex m.groups ≥ 3 then grpStr t m.groups 3
      else if lastIndex m.groups ≥ 2 then grpStr t m.groups 2
      else none
    else
      if lastIndex m.groups ≥ 2 then grpStr t m.groups 2 else none
  match num_raw with
  | none => Except.ok none
  | some nr =>
    if nr = [] then Except.ok none
    else
      match pyAmountNum nr with
      | some q => Except.ok (some ⟨score, q, cur⟩)
      | none => Except.error ("could not convert string to float")

/-- Candidates of a list of matches, in match order; the first float
failure aborts, as an uncaught ValueError does in the source. -/
def candsOfMatches (t : List Char) (cur : String) : List MRes → Except String (List Cand)
  | [] => Except.ok []
  | m :: ms =>
    match candFrom t cur m with
    | Except.error e => Except.error e
    | Except.ok c? =>
      match candsOfMatches t cur ms with
      | Except.error e => Except.error e
      | Except.ok rest =>
        match c? with
        | some c => Except.ok (c :: rest)
        | none => Except.ok rest

/-- All candidates, patterns in their listed order, matches of each
pattern in document order (finditer). -/
def buildCands (t : List Char) : List (RE × String) → Except String (List Cand)
  | [] => Except.ok []
  | pc :: ps =>
    match candsOfMatches t pc.2 (refinditer pc.1 t) with
    | Except.error e => Except.error e
    | Except.ok a =>
      match buildCands t ps with
      | Except.error e => Except.error e
      | Except.ok b => Except.ok (a ++ b)

/-- Stable insertion for the descending sort: an element is placed after
every earlier element with a greater-or-equal score (Python sorted with
key score and reverse=True is stable). -/
def insCand (c : Cand) : List Cand → List Cand
  | [] => [c]
  | x :: xs => if x.score > c.score then x :: insCand c xs else c :: x :: xs

/-- Stable descending sort by score: the head of the original list is
inserted into the sorted tail before every element of equal score, so
earlier candidates stay first among equals. -/
def sortCandsDesc : List Cand → List Cand
  | [] => []
  | x :: xs => insCand x (sortCandsDesc xs)

/-- The no-break-space replacement applied by detect_amount_currency
before matching. -/
def amountText (text : String) : List Char :=
  text.data.map (fun c => if c = '\u00A0' then ' ' else c)

/-- Source detect_amount_currency: replace no-break spaces, collect scored
candidates from the six anchored patterns, and return either
(none, ARS) when there is no candidate or the first best-scored
candidate (sorted with reverse=True is stable, so the head of the sort is
the first candidate of maximal score in collection order). -/
def detect_amount_currency (text : String) : Except String (Option Rat × String) :=
  match buildCands (amountText text) amountPatterns with
  | Except.error e => Except.error e
  | Except.ok candidates =>
    match (sortCandsDesc candidates).head? with
    | none => Except.ok (none, "ARS")
    | some best => Except.ok (some best.amount, best.currency)


/-! Embedding of _clean_name, _extract_labeled_party and detect_parties. -/

/-- The honorific-prefix pattern of _clean_name, anchored at the start of
the string (re.sub with a caret replaces at most the one leading match). -/
def cleanPrefixRE : RE :=
  catR [.bos, wsS, .grp 1 (altR [litI (("el").data), litI (("la").data)]), wsP,
    .grp 2 (altR [litI (("señor").data), litI (("señora").data),
      catR [litI (("sr").data), optR (chI '.')],
      catR [litI (("sra").data), optR (chI '.')]]),
    wsS, optR (chI ':'), wsS]

/-- The identifier tokens DNI, CUIT, CDI, LC, LE between word boundaries
(the re.split separator of _clean_name). -/
def idTokenRE : RE :=
  catR [.wb, .grp 1 (altR [litI (("DNI").data), litI (("CUIT").data),
    litI (("CDI").data), litI (("LC").data), litI (("LE").data)]), .wb]

/-- The strip set of _clean_name and detect_property_label: space, comma,
semicolon, hyphen. -/
def nameStripSet (c : Char) : Bool :=
  c = ' ' || c = ',' || c = ';' || c = '-'

/-- Source _clean_name. -/
def clean_name (raw0 : List Char) : Option (List Char) :=
  let r1 := normalizeL raw0
  let r2 := match research cleanPrefixRE r1 with
    | some m => r1.drop m.mend
    | none => r1
  let r3 := stripChars nameStripSet (r2.filter (fun c => c ≠ '“' && c ≠ '”' && c ≠ '"'))
  let r4 := match research idTokenRE r3 with
    | some m => r3.take m.mstart
    | none => r3
  let r5 := stripChars nameStripSet (normalizeL r4)
  if r5.length < 3 then none
  else if r5.any (fun c => c = '@' || c = '/') then none
  else some r5

/-- The o-or-a class of the source (denominad and ubicad endings). -/
def oaCls : RE := .cls (fun c => pyLower c = 'o' || pyLower c = 'a')

/-- The uppercase name-start class of the source; under IGNORECASE its
char set coincides with the month-letter set (ASCII letters and accented
vowels plus enye, either case). -/
def upperStartCls : RE := .cls monthLetter

/-- The name-body class of the source: letters, accented letters,
whitespace, apostrophe, dot, hyphen. -/
def nameBodyCls : RE :=
  .cls (fun c => monthLetter c || pySpace c || c = '\'' || c = '.' || c = '-')

/-- The uppercase name-start class of the flag-less findall pattern,
case-sensitive: A-Z and the uppercase accented vowels plus enye. -/
def upperNameStart (c : Char) : Bool :=
  ('A' ≤ c && c ≤ 'Z') || c = 'Á' || c = 'É' || c = 'Í' || c = 'Ó' || c = 'Ú' || c = 'Ñ'

/-- The name-body class of the flag-less findall pattern, case-sensitive:
both letter cases, the listed accented letters, whitespace, apostrophe,
dot, hyphen. -/
def nameBodyChar (c : Char) : Bool :=
  ('A' ≤ c && c ≤ 'Z') || ('a' ≤ c && c ≤ 'z') ||
  c = 'Á' || c = 'É' || c = 'Í' || c = 'Ó' || c = 'Ú' || c = 'Ñ' ||
  c = 'á' || c = 'é' || c = 'í' || c = 'ó' || c = 'ú' || c = 'ñ' ||
  pySpace c || c = '\'' || c = '.' || c = '-'

/-- NAME con DNI, name captured as group 1: the findall pattern of the
positional fallback and of _extract_labeled_party.  Unlike every re.search
in this module, the two findall calls pass no flags, so this pattern is
case-sensitive. -/
def partyDniRE : RE :=
  catR [.wb, .grp 1 (catR [.cls upperNameStart, .rep (.cls nameBodyChar) 2 (some 80) false]),
    wsP, litS (("con").data), wsP, litS (("DNI").data), .wb]

/-- All group-1 captures of the findall pattern, in document order. -/
def findallParty (s : List Char) : List (List Char) :=
  (refinditer partyDniRE s).map (fun m => (grpStr s m.groups 1).getD [])

/-- detect_parties strategy 1: entre OWNER con DNI ... por una parte, y
por la otra TENANT, de nacionalidad. -/
def partiesS1 : RE :=
  catR [.wb, litI (("entre").data), wsP, .grp 1 lazyPlus, wsP,
    litI (("con").data), wsP, litI (("DNI").data), .wb, lazyPlus, .wb,
    litI (("por").data), wsP, litI (("una").data), wsP, litI (("parte").data), .wb,
    wsS, optR (chI ','), wsS,
    litI (("y").data), wsP, litI (("por").data), wsP, litI (("la").data), wsP,
    litI (("otra").data), wsP, .grp 2 lazyPlus, wsS, chI ',', wsP,
    litI (("de").data), wsP, litI (("nacionalidad").data), .wb]

/-- detect_parties strategy 1b: the variant ending in TENANT, con DNI,
with an optional el señor colon. -/
def partiesS1b : RE :=
  catR [.wb, litI (("entre").data), wsP, .grp 1 lazyPlus, wsP,
    litI (("con").data), wsP, litI (("DNI").data), .wb, lazyPlus, .wb,
    litI (("por").data), wsP, litI (("una").data), wsP, litI (("parte").data), .wb,
    lazyPlus, .wb,
    litI (("y").data), wsP, litI (("por").data), wsP, litI (("la").data), wsP,
    litI (("otra").data), .wb,
    optR (catR [wsP, litI (("el").data), wsP, litI (("señor").data), wsS, chI ':']),
    wsS, .grp 2 lazyPlus, wsS, chI ',', wsP,
    litI (("con").data), wsP, litI (("DNI").data), .wb]

/-- detect_parties strategy 2, the signature-block pattern: newline,
TENANT name, lazy gap, quoted EL LOCATARIO, greedy gap of at most 200,
OWNER name, lazy gap, quoted EL LOCADOR. -/
def partiesS2 : RE :=
  catR [chI '\n', wsS,
    .grp 1 (catR [upperStartCls, .rep nameBodyCls 3 (some 80) false]), wsP,
    lazyStar, optR (chI '"'), litI (("EL").data), wsP, litI (("LOCATARIO").data),
    optR (chI '"'), .rep adot 0 (some 200) false, wsS,
    .grp 2 (catR [upperStartCls, .rep nameBodyCls 3 (some 80) false]), wsP,
    lazyStar, optR (chI '"'), litI (("EL").data), wsP, litI (("LOCADOR").data),
    optR (chI '"')]

/-- The _extract_labeled_party pattern for a given role label: start of
string or separator, a lazy block of at most 700 characters, en adelante
denominado or denominada, the quoted label. -/
def labeledRE (label : List Char) : RE :=
  catR [altR [.bos, .cls (fun c => pySpace c || c = ',' || c = ';')],
    .grp 1 (lazyGap 0 700), .wb,
    litI (("en").data), wsP, litI (("adelante").data), wsP,
    litI (("denominad").data), oaCls, wsP, optR (chI '"'), litI label, optR (chI '"')]

/-- Source _extract_labeled_party: match the label clause, then take the
last NAME con DNI hit inside the preceding block and clean it. -/
def extract_labeled_party (t : List Char) (label : List Char) : Option (List Char) :=
  match research (labeledRE label) t with
  | none => none
  | some m =>
    let block := (grpStr t m.groups 1).getD []
    match (findallParty block).getLast? with
    | none => none
    | some h => clean_name h

/-- The rescue pattern of detect_parties: y por la otra TENANT, con DNI. -/
def rescueRE : RE :=
  catR [.wb, litI (("y").data), wsP, litI (("por").data), wsP, litI (("la").data), wsP,
    litI (("otra").data), .wb,
    optR (catR [wsP, litI (("el").data), wsP, litI (("señor").data), wsS, chI ':']),
    wsS, .grp 1 lazyPlus, wsS, chI ',', wsP,
    litI (("con").data), wsP, litI (("DNI").data), .wb]

/-- detect_parties strategies 3 and 4 (labels, rescue, positional
fallback), reached when strategies 1, 1b and 2 produced nothing. -/
def detect_parties_s3 (t : List Char) : Option (List Char) × Option (List Char) :=
  let owner := extract_labeled_party t (("EL LOCADOR").data)
  let tenant0 := extract_labeled_party t (("EL LOCATARIO").data)
  let tenant := match tenant0 with
    | some x => some x
    | none =>
      match research rescueRE t with
      | some m => clean_name ((grpStr t m.groups 1).getD [])
      | none => none
  if owner.isSome || tenant.isSome then (owner, tenant)
  else
    match findallParty t with
    | h1 :: h2 :: _ => (clean_name h1, clean_name h2)
    | _ => (none, none)

/-- Source detect_parties: the four-strategy chain.  Note that no branch
compares the two cleaned names: each strategy's result is returned as
soon as its guard holds. -/
def detect_parties (text : String) : Option (List Char) × Option (List Char) :=
  let t := text.data
  match research partiesS1 t with
  | some m =>
      (clean_name ((grpStr t m.groups 1).getD []),
       clean_name ((grpStr t m.groups 2).getD []))
  | none =>
  match research partiesS1b t with
  | some m =>
      (clean_name ((grpStr t m.groups 1).getD []),
       clean_name ((grpStr t m.groups 2).getD []))
  | none =>
  match research partiesS2 t with
  | some m =>
      let tenant := clean_name ((grpStr t m.groups 1).getD [])
      let owner := clean_name ((grpStr t m.groups 2).getD [])
      if owner.isSome || tenant.isSome then (owner, tenant)
      else detect_parties_s3 t
  | none => detect_parties_s3 t

/-! Embedding of detect_property_label. -/

/-- The clause terminator of the address patterns: dot-then-whitespace,
a triple hyphen, or a newline. -/
def propTerm : RE :=
  altR [catR [chI '.', wsc], litI (("---").data), chI '\n']

/-- The address cleanup shared by the three branches: normalize, drop
quote characters, strip punctuation, cap at 140 characters. -/
def prop_clean (addr0 : List Char) : List Char :=
  let a1 := normalizeL addr0
  let a2 := a1.filter (fun c => c ≠ '“' && c ≠ '”' && c ≠ '"')
  (stripChars nameStripSet a2).take 140

/-- detect_property_label priority 1: PRIMERA, un departamento ubicado en
la calle ADDRESS. -/
def propPat1 : RE :=
  catR [.wb, litI (("PRIMERA").data), .wb, lazyStar, .wb,
    litI (("un").data), wsP, litI (("departamento").data), wsP,
    litI (("ubicado").data), wsP, litI (("en").data), wsP, litI (("la").data), wsP,
    litI (("calle").data), wsP, .grp 1 lazyPlus, propTerm]

/-- detect_property_label priority 2: a dwelling noun, ubicado or ubicada
en la calle ADDRESS. -/
def propPat2 : RE :=
  catR [.wb,
    .grp 1 (altR [litI (("departamento").data), litI (("inmueble").data),
      litI (("unidad").data)]),
    .wb, lazyStar, .wb, litI (("ubicad").data), oaCls, wsP,
    litI (("en").data), wsP, litI (("la").data), wsP,
    litI (("calle").data), wsP, .grp 2 lazyPlus, propTerm]

/-- detect_property_label priority 3: bare ubicado en la calle ADDRESS. -/
def propPat3 : RE :=
  catR [.wb, litI (("ubicad").data), oaCls, wsP,
    litI (("en").data), wsP, litI (("la").data), wsP,
    litI (("calle").data), wsP, .grp 1 lazyPlus, propTerm]

/-- Source detect_property_label. -/
def detect_property_label (text : String) : Option (List Char) :=
  let t := text.data
  match research propPat1 t with
  | some m => some (prop_clean ((grpStr t m.groups 1).getD []))
  | none =>
  match research propPat2 t with
  | some m => some (prop_clean ((grpStr t m.groups 2).getD []))
  | none =>
  match research propPat3 t with
  | some m => some (prop_clean ((grpStr t m.groups 1).getD []))
  | none => none

/-! Embedding of detect_adjustment. -/

/-- The adjustment record: the dict with a type tag and an optional
frequencyMonths entry. -/
structure Adjustment where
  type : String
  frequencyMonths : Option Nat
deriving DecidableEq

/-- The quarterly cue: the stem trimestr after a word boundary. -/
def adjTrimRE : RE := catR [.wb, litI (("trimestr").data)]

/-- The quarterly cue: cada tres, optional parenthesis, any character,
the digit 3, then mes. -/
def adjCada3RE : RE :=
  catR [.wb, litI (("cada").data), wsP, litI (("tres").data), wsS,
    optR (chI '('), optR ndot, chI '3', optR (chI ')'), wsP, litI (("mes").data)]

/-- The monthly cue: the stem mensual after a word boundary. -/
def adjMensualRE : RE := catR [.wb, litI (("mensual").data)]

/-- The monthly cue: cada un, optional parenthesis, any character, the
digit 1, then mes. -/
def adjCada1RE : RE :=
  catR [.wb, litI (("cada").data), wsP, litI (("un").data), wsS,
    optR (chI '('), optR ndot, chI '1', optR (chI ')'), wsP, litI (("mes").data)]

/-- The inflation-index cue of detect_adjustment: the substring ipc, or
the spelled-out index with or without the accent, in the lowercased text. -/
def hasIndexCue (t : List Char) : Bool :=
  containsL (("ipc").data) t || containsL (("índice de precios").data) t ||
    containsL (("indice de precios").data) t

/-- Source detect_adjustment. -/
def detect_adjustment (text : String) (currency : String) : Adjustment :=
  let t := pyLowerL text.data
  if currency ≠ "ARS" then ⟨"NONE", none⟩
  else if ¬ hasIndexCue t then ⟨"NONE", none⟩
  else if (research adjTrimRE t).isSome || (research adjCada3RE t).isSome then
    ⟨"IPC_QUARTERLY", some 3⟩
  else if (research adjMensualRE t).isSome || (research adjCada1RE t).isSome then
    ⟨"IPC_MONTHLY", some 1⟩
  else ⟨"IPC_QUARTERLY", some 3⟩

/-! Embedding of the decode dispatch and the extraction orchestrator. -/

/-- Source extract_text_from_file: a filename whose lowercase form ends in
dot-docx goes to the external python-docx decoder (out of scope per the
specification, modelled as an opaque failure tag that this development
never exercises); any other filename, whatever its extension, is decoded
as UTF-8 with errors ignored, modelled as the identity on the already
textual content.  No extension is ever rejected here. -/
def extract_text_from_file (content : String) (filename : String) : Except String String :=
  if endsL ((".docx").data) (pyLowerL filename.data) then
    Except.error ("external docx decoder")
  else Except.ok content

/-- The extraction record returned by the extract endpoint. -/
structure Extracted where
  propertyLabel : Option String
  ownerName : Option String
  tenantName : Option String
  startDate : Option String
  endDate : Option String
  amount : Option Rat
  currency : String
  adjustment : Adjustment
deriving DecidableEq

/-- The extract orchestrator body: run the five resolvers over the decoded
text (the source passes the raw decoded text to every resolver; none of
them receives normalize(text)).  An uncaught exception in a resolver
(Except.error here) aborts the whole call, as in the source. -/
def extract_fields (text : String) : Except String Extracted :=
  let po := detect_parties text
  let property_label := detect_property_label text
  match detect_dates text with
  | Except.error e => Except.error e
  | Except.ok se =>
    match detect_amount_currency text with
    | Except.error e => Except.error e
    | Except.ok ac =>
      let adjustment := detect_adjustment text ac.2
      Except.ok ⟨property_label.map String.mk, po.1.map String.mk, po.2.map String.mk,
        se.1.map String.mk, se.2.map String.mk, ac.1, ac.2, adjustment⟩


/-- The extract endpoint on a file: decode by extension dispatch, then run
the field resolvers on whatever text came out. -/
def extract_call (content : String) (filename : String) : Except String Extracted :=
  match extract_text_from_file content filename with
  | Except.error e => Except.error e
  | Except.ok text => extract_fields text

/-- The upload gate of the Flask backend (upload_contract): the lowercased
filename must end in dot-pdf or dot-docx. -/
def flask_upload_accepts (filename : String) : Bool :=
  endsL ((".pdf").data) (pyLowerL filename.data) ||
    endsL ((".docx").data) (pyLowerL filename.data)

/-- The upload_contract extension check: a rejected filename produces the
400 error body and the extractor is never invoked; an accepted one
forwards the file to the extraction service. -/
def flask_upload_gate (filename : String) : Sum String Unit :=
  if flask_upload_accepts filename = false then
    Sum.inl ("Only .pdf or .docx supported")
  else Sum.inr ()

/-- Truth-value of an Except being an error. -/
def isErr {e a : Type} : Except e a → Bool
  | Except.error _ => true
  | Except.ok _ => false


/-! Helper lemmas. -/

/-- Dropping commas is the identity on digit strings. -/
theorem map_comma_digits (ds : List Char) (h : ds.all Char.isDigit = true) :
    ds.map (fun c => if c = ',' then '.' else c) = ds := by
  induction ds with
  | nil => rfl
  | cons c cs ih =>
    simp only [List.all_cons, Bool.and_eq_true] at h
    have hc : c ≠ ',' := by
      intro e; subst e; exact absurd h.1 (by decide)
    simp [if_neg hc, ih h.2]

/-- Filtering out dots is the identity on digit strings. -/
theorem filter_dot_digits (ds : List Char) (h : ds.all Char.isDigit = true) :
    ds.filter (fun c => c ≠ '.') = ds := by
  induction ds with
  | nil => rfl
  | cons c cs ih =>
    simp only [List.all_cons, Bool.and_eq_true] at h
    have hc : c ≠ '.' := by
      intro e; subst e; exact absurd h.1 (by decide)
    rw [List.filter_cons_of_pos, ih h.2]
    simp [hc]

/-- splitDot finds no dot in a digit string. -/
theorem splitDot_digits (ds : List Char) (h : ds.all Char.isDigit = true) :
    splitDot ds = (ds, none) := by
  induction ds with
  | nil => rfl
  | cons c cs ih =>
    simp only [List.all_cons, Bool.and_eq_true] at h
    have hc : c ≠ '.' := by
      intro e; subst e; exact absurd h.1 (by decide)
    rw [splitDot.eq_def]
    split
    · rename_i heq
      exact absurd heq (by simp)
    · rename_i rest heq
      rw [List.cons.injEq] at heq
      exact absurd heq.1 hc
    · rename_i c2 rest hne heq
      rw [List.cons.injEq] at heq
      obtain ⟨h1, h2⟩ := heq
      subst h1
      subst h2
      rw [ih h.2]

/-- Every month length is at least 28. -/
theorem monthrange_pos (y m : Nat) : 28 ≤ monthrange y m := by
  unfold monthrange
  split
  · split <;> omega
  · split <;> omega

/-! Claim theorems. -/

/-- C1, counterexample: the code converts an anchored amount string by
deleting every dot and then treating every comma as a decimal point, so
the US-style string 650,000.00 parses to 650, not to 650000 as the claim
requires. -/
theorem C1_counterexample :
    pyAmountNum (("650,000.00").data) = some (650 : Rat) ∧ (650 : Rat) ≠ (650000 : Rat) := by
  refine ⟨by with_unfolding_all rfl, by norm_num⟩

/-- C1, amended: amount parsing deletes every dot and then reads every
comma as a decimal point (the Argentine convention), so each bare digit
string parses to its numeric value, 650.000,00 parses to 650000 and
650000 parses to 650000, while 650,000.00 parses to 650; no
rightmost-separator disambiguation exists. -/
theorem C1_amended :
    (∀ ds : List Char, ds ≠ [] → ds.all Char.isDigit = true →
        pyAmountNum ds = some ((digitsToNat ds : Nat) : Rat)) ∧
    pyAmountNum (("650.000,00").data) = some (650000 : Rat) ∧
    pyAmountNum (("650000").data) = some (650000 : Rat) ∧
    pyAmountNum (("650,000.00").data) = some (650 : Rat) := by
  refine ⟨?_, by with_unfolding_all rfl, by with_unfolding_all rfl, by with_unfolding_all rfl⟩
  intro ds h1 h2
  unfold pyAmountNum pyFloat
  rw [filter_dot_digits ds h2, map_comma_digits ds h2, splitDot_digits ds h2]
  simp [h1, h2]

/-- C1, witness for the amended universal: the bare integer 650000. -/
theorem C1_amended_witness :
    (("650000").data ≠ [] ∧ (("650000").data).all Char.isDigit = true) ∧
    pyAmountNum (("650000").data) = some ((digitsToNat (("650000").data) : Nat) : Rat) :=
  ⟨⟨by decide, by decide⟩, C1_amended.1 (("650000").data) (by decide) (by decide)⟩

/-- C2: a captured date string that matches the numeric grammar but is not
a real calendar date (31/02/2026) reaches _iso_to_date in the
signing-date-plus-term branch and raises ValueError, so the extraction
call aborts with an error that is neither UnsupportedFormatError nor
DecodeError; the claim that per-field misses can never abort the call is
the intended behaviour, and this input shows the code violating it. -/
theorem C2_extraction_raises :
    detect_dates ("comienza el 31/02/2026, por el plazo de 24 meses") =
      Except.error ("day is out of range for month") ∧
    isErr (extract_fields ("comienza el 31/02/2026, por el plazo de 24 meses")) = true ∧
    detect_dates ("sin fechas aqui") = Except.ok (none, none) := by
  refine ⟨by decide, by decide, by decide⟩

/-- C3, counterexample: on a contract naming the same person as both
parties, strategy 1 matches and its cleaned pair is returned unchanged:
ownerName and tenantName are both Juan Perez, and no alternate strategy
is attempted. -/
theorem C3_counterexample :
    detect_parties
      ("entre Juan Perez con DNI 11 por una parte, y por la otra Juan Perez, de nacionalidad argentina") =
      (some (("Juan Perez").data), some (("Juan Perez").data)) := by decide

/-- C3, amended: detect_parties performs no equality check and no
conflict recovery: whenever strategy 1 matches, its two cleaned captures
are returned directly, identical or not, and no later strategy runs. -/
theorem C3_amended (t : String) (m : MRes) (h : research partiesS1 t.data = some m) :
    detect_parties t =
      (clean_name ((grpStr t.data m.groups 1).getD []),
       clean_name ((grpStr t.data m.groups 2).getD [])) := by
  simp only [detect_parties]
  rw [h]

/-- C3, witness: the duplicate-name contract instantiates the amended
theorem. -/
theorem C3_amended_witness :
    research partiesS1
      (("entre Juan Perez con DNI 11 por una parte, y por la otra Juan Perez, de nacionalidad argentina").data) =
      some ⟨0, 84, [(2, 57, 67), (1, 6, 16)]⟩ ∧
    detect_parties
      ("entre Juan Perez con DNI 11 por una parte, y por la otra Juan Perez, de nacionalidad argentina") =
      (clean_name ((grpStr (("entre Juan Perez con DNI 11 por una parte, y por la otra Juan Perez, de nacionalidad argentina").data) [(2, 57, 67), (1, 6, 16)] 1).getD []),
       clean_name ((grpStr (("entre Juan Perez con DNI 11 por una parte, y por la otra Juan Perez, de nacionalidad argentina").data) [(2, 57, 67), (1, 6, 16)] 2).getD [])) :=
  ⟨by decide,
   C3_amended _ ⟨0, 84, [(2, 57, 67), (1, 6, 16)]⟩ (by decide)⟩

/-- C4, counterexample: the extraction service itself never rejects an
extension: a .txt upload is decoded as UTF-8 text and full field
extraction runs on it (here it even extracts the rent), contradicting
the claim that non-pdf, non-docx input fails before any field
extraction. -/
theorem C4_counterexample :
    extract_text_from_file ("El canon locativo asciende a $ 650.000.") ("contrato.txt") =
      Except.ok ("El canon locativo asciende a $ 650.000.") ∧
    extract_call ("El canon locativo asciende a $ 650.000.") ("contrato.txt") =
      Except.ok ⟨none, none, none, none, none, some (650000 : Rat), "ARS", ⟨"NONE", none⟩⟩ := by
  refine ⟨by decide, by decide⟩

/-- C4, amended: the extension gate lives only in the Flask upload
endpoint, which answers 400 before calling the extractor for any
filename not ending in .pdf or .docx (case-insensitive); the extraction
service itself accepts every extension, decoding non-docx content as
UTF-8 text and proceeding with extraction. -/
theorem C4_amended (f : String) (h : flask_upload_accepts f = false) :
    flask_upload_gate f = Sum.inl ("Only .pdf or .docx supported") ∧
    (∀ content : String, extract_text_from_file content f = Except.ok content) := by
  constructor
  · unfold flask_upload_gate
    rw [if_pos h]
  · intro content
    unfold extract_text_from_file
    unfold flask_upload_accepts at h
    rw [if_neg]
    intro hd
    rw [hd] at h
    simp at h

/-- C4, witness: a .txt filename is rejected by the Flask gate while the
extractor would happily decode it. -/
theorem C4_amended_witness :
    flask_upload_accepts ("contrato.txt") = false ∧
    flask_upload_gate ("contrato.txt") = Sum.inl ("Only .pdf or .docx supported") ∧
    extract_text_from_file ("hola") ("contrato.txt") = Except.ok ("hola") :=
  ⟨by decide, (C4_amended ("contrato.txt") (by decide)).1,
   (C4_amended ("contrato.txt") (by decide)).2 ("hola")⟩

/-- C5, counterexample: the claim's universal fails at the datetime year
bound: 9999-12-31 is a valid start date, yet one more month makes
_add_months construct date(10000, 1, 31), which raises ValueError instead
of returning the claimed clamped end date, and a contract signed in 9999
with a twelve-month term aborts the whole date resolution. -/
theorem C5_counterexample :
    validDate ⟨9999, 12, 31⟩ = true ∧
    add_months ⟨9999, 12, 31⟩ 1 = Except.error ("year is out of range") ∧
    detect_dates ("a los 15 dias del mes de enero de 9999, por el plazo de 12 meses") =
      Except.error ("year is out of range") := by
  refine ⟨by decide, by decide, by decide⟩

/-- C5, amended: for a valid start date, _add_months advances the
linearised month index by exactly the requested number of months, clamps
the day to the last day of the target month and returns a valid date,
whenever the target month's year stays at most 9999; past that bound the
date constructor raises ValueError instead. -/
theorem C5_amended :
    (∀ (d : PyDate) (n : Nat), validDate d = true →
      d.year + (d.month - 1 + n) / 12 ≤ 9999 →
      add_months d n =
        Except.ok ⟨d.year + (d.month - 1 + n) / 12, (d.month - 1 + n) % 12 + 1,
          min d.day (monthrange (d.year + (d.month - 1 + n) / 12) ((d.month - 1 + n) % 12 + 1))⟩ ∧
      ∀ r : PyDate, add_months d n = Except.ok r →
        r.year * 12 + r.month = d.year * 12 + d.month + n ∧
        r.day = min d.day (monthrange r.year r.month) ∧
        validDate r = true) ∧
    (∀ (d : PyDate) (n : Nat), validDate d = true →
      9999 < d.year + (d.month - 1 + n) / 12 →
      add_months d n = Except.error ("year is out of range")) := by
  constructor
  · intro d n h hy
    simp only [validDate, Bool.and_eq_true, decide_eq_true_eq] at h
    obtain ⟨⟨⟨⟨⟨h1, h2⟩, h3⟩, h4⟩, h5⟩, h6⟩ := h
    have hpos := monthrange_pos (d.year + (d.month - 1 + n) / 12) ((d.month - 1 + n) % 12 + 1)
    have hok : add_months d n =
        Except.ok ⟨d.year + (d.month - 1 + n) / 12, (d.month - 1 + n) % 12 + 1,
          min d.day (monthrange (d.year + (d.month - 1 + n) / 12)
            ((d.month - 1 + n) % 12 + 1))⟩ := by
      simp only [add_months, date_mk]
      rw [if_pos (by omega), if_pos (by omega), if_pos (by constructor <;> omega)]
    refine ⟨hok, ?_⟩
    intro r hr
    rw [hok] at hr
    simp only [Except.ok.injEq] at hr
    subst hr
    refine ⟨by simp; omega, rfl, ?_⟩
    simp only [validDate, Bool.and_eq_true, decide_eq_true_eq]
    refine ⟨⟨⟨⟨⟨by omega, by omega⟩, by omega⟩, by omega⟩, by omega⟩, by omega⟩
  · intro d n h hy
    simp only [add_months, date_mk]
    rw [if_neg (by omega)]

/-- C5, witness: January 31 plus one month clamps to February 28 in 2026
and February 29 in leap 2024; a two-year term is twenty-four months. -/
theorem C5_amended_witness :
    (validDate ⟨2026, 1, 31⟩ = true ∧ 2026 + (1 - 1 + 1) / 12 ≤ 9999) ∧
    add_months ⟨2026, 1, 31⟩ 1 = Except.ok ⟨2026, 2, 28⟩ ∧
    add_months ⟨2024, 1, 31⟩ 1 = Except.ok ⟨2024, 2, 29⟩ ∧
    detect_dates ("a los 15 dias del mes de enero de 2026, por el plazo de dos (2) años") =
      Except.ok (some (("2026-01-15").data), some (("2028-01-15").data)) ∧
    (∀ r : PyDate, add_months ⟨2026, 1, 31⟩ 1 = Except.ok r →
      r.year * 12 + r.month = 2026 * 12 + 1 + 1 ∧
      r.day = min 31 (monthrange r.year r.month) ∧
      validDate r = true) :=
  ⟨⟨by decide, by decide⟩, by decide, by decide, by decide,
   (C5_amended.1 ⟨2026, 1, 31⟩ 1 (by decide) (by decide)).2⟩

/-- C6: the adjustment classifier returns NONE for non-ARS currency and
for ARS text without an inflation-index cue; with the cue it returns
quarterly (3) on a quarterly cue, monthly (1) on a monthly cue when no
quarterly cue is present (the quarterly branch is checked first), and
defaults to quarterly (3) when no frequency cue occurs; in particular the
bare IPC clause of the specification classifies as quarterly. -/
theorem C6_adjustment_classification :
    (∀ text currency : String, currency ≠ "ARS" →
        detect_adjustment text currency = ⟨"NONE", none⟩) ∧
    (∀ text : String, hasIndexCue (pyLowerL text.data) = false →
        detect_adjustment text "ARS" = ⟨"NONE", none⟩) ∧
    (∀ text : String, hasIndexCue (pyLowerL text.data) = true →
        ((research adjTrimRE (pyLowerL text.data)).isSome ||
          (research adjCada3RE (pyLowerL text.data)).isSome) = true →
        detect_adjustment text "ARS" = ⟨"IPC_QUARTERLY", some 3⟩) ∧
    (∀ text : String, hasIndexCue (pyLowerL text.data) = true →
        ((research adjTrimRE (pyLowerL text.data)).isSome ||
          (research adjCada3RE (pyLowerL text.data)).isSome) = false →
        ((research adjMensualRE (pyLowerL text.data)).isSome ||
          (research adjCada1RE (pyLowerL text.data)).isSome) = true →
        detect_adjustment text "ARS" = ⟨"IPC_MONTHLY", some 1⟩) ∧
    (∀ text : String, hasIndexCue (pyLowerL text.data) = true →
        ((research adjTrimRE (pyLowerL text.data)).isSome ||
          (research adjCada3RE (pyLowerL text.data)).isSome) = false →
        ((research adjMensualRE (pyLowerL text.data)).isSome ||
          (research adjCada1RE (pyLowerL text.data)).isSome) = false →
        detect_adjustment text "ARS" = ⟨"IPC_QUARTERLY", some 3⟩) ∧
    detect_adjustment ("el alquiler se ajustará conforme al IPC") ("ARS") =
      ⟨"IPC_QUARTERLY", some 3⟩ := by
  refine ⟨?_, ?_, ?_, ?_, ?_, by decide⟩
  · intro text currency h
    simp only [detect_adjustment]
    rw [if_pos h]
  · intro text h
    simp only [detect_adjustment]
    rw [if_neg (by simp), if_pos (by simp [h])]
  · intro text h1 h2
    simp only [detect_adjustment]
    rw [if_neg (by simp), if_neg (by simp [h1]), if_pos h2]
  · intro text h1 h2 h3
    simp only [detect_adjustment]
    rw [if_neg (by simp), if_neg (by simp [h1]), if_neg (by simp [h2]), if_pos h3]
  · intro text h1 h2 h3
    simp only [detect_adjustment]
    rw [if_neg (by simp), if_neg (by simp [h1]), if_neg (by simp [h2]), if_neg (by simp [h3])]

/-- C6, witness: a non-ARS currency yields NONE. -/
theorem C6_adjustment_classification_witness :
    ("USD" : String) ≠ "ARS" ∧
    detect_adjustment ("ajuste por IPC") ("USD") = ⟨"NONE", none⟩ :=
  ⟨by decide, C6_adjustment_classification.1 ("ajuste por IPC") ("USD") (by decide)⟩

/-- C7: when the six anchored rent patterns produce no candidate the
resolver returns the null amount with the ARS default, never a number
found elsewhere in the document. -/
theorem C7_no_candidate_default (text : String)
    (h : buildCands (amountText text) amountPatterns = Except.ok []) :
    detect_amount_currency text = Except.ok (none, "ARS") := by
  unfold detect_amount_currency
  rw [h]
  rfl

/-- C7, witness: a document with a deposit figure, a dollar sign and a
decoy clause but no rent anchor has zero candidates and yields
(null, ARS). -/
theorem C7_no_candidate_default_witness :
    buildCands (amountText
      ("Se fija un deposito de garantia de $ 1.300.000 y una multa de $ 50.000.")) amountPatterns =
      Except.ok [] ∧
    detect_amount_currency
      ("Se fija un deposito de garantia de $ 1.300.000 y una multa de $ 50.000.") =
      Except.ok (none, "ARS") :=
  ⟨by decide, C7_no_candidate_default _ (by decide)⟩


/-! Selection lemmas for the amount resolver. -/

/-- Inserting never yields the empty list. -/
theorem insCand_ne_nil (c : Cand) (l : List Cand) : insCand c l ≠ [] := by
  cases l with
  | nil => simp [insCand]
  | cons x xs =>
    simp only [insCand]
    split <;> simp

/-- An empty sort comes only from an empty list. -/
theorem sortCandsDesc_eq_nil (l : List Cand) (h : sortCandsDesc l = []) : l = [] := by
  cases l with
  | nil => rfl
  | cons x xs =>
    rw [sortCandsDesc] at h
    exact absurd h (insCand_ne_nil x (sortCandsDesc xs))

/-- The head of the stable descending sort is a maximal-score element and
is the first such element in the original order: the list splits as
pre ++ head :: post with every earlier element of strictly smaller
score. -/
theorem sortCandsDesc_head (l : List Cand) (b : Cand)
    (h : (sortCandsDesc l).head? = some b) :
    (∀ x ∈ l, x.score ≤ b.score) ∧
    ∃ pre post, l = pre ++ b :: post ∧ ∀ x ∈ pre, x.score < b.score := by
  induction l generalizing b with
  | nil => simp [sortCandsDesc] at h
  | cons c cs ih =>
    rw [sortCandsDesc] at h
    cases hs : sortCandsDesc cs with
    | nil =>
      rw [hs] at h
      simp only [insCand, List.head?_cons, Option.some.injEq] at h
      subst h
      have hnil := sortCandsDesc_eq_nil cs hs
      subst hnil
      exact ⟨by simp, [], [], by simp, by simp⟩
    | cons x xs =>
      rw [hs] at h
      simp only [insCand] at h
      split at h
      · rename_i hx
        simp only [List.head?_cons, Option.some.injEq] at h
        subst h
        have ihx := ih x (by rw [hs]; rfl)
        obtain ⟨hmax, pre, post, hdec, hpre⟩ := ihx
        refine ⟨?_, c :: pre, post, by rw [hdec]; rfl, ?_⟩
        · intro y hy
          rcases List.mem_cons.mp hy with hy | hy
          · subst hy; omega
          · exact hmax y hy
        · intro y hy
          rcases List.mem_cons.mp hy with hy | hy
          · subst hy; omega
          · exact hpre y hy
      · rename_i hx
        simp only [List.head?_cons, Option.some.injEq] at h
        subst h
        have ihx := ih x (by rw [hs]; rfl)
        obtain ⟨hmax, _⟩ := ihx
        refine ⟨?_, [], cs, rfl, by simp⟩
        intro y hy
        rcases List.mem_cons.mp hy with hy | hy
        · subst hy; omega
        · have := hmax y hy
          omega

/-- A successful candidate has score 10, or 4 under the decoy penalty. -/
theorem candFrom_score (t : List Char) (cur : String) (m : MRes) (c : Cand)
    (h : candFrom t cur m = Except.ok (some c)) : c.score = 10 ∨ c.score = 4 := by
  simp only [candFrom] at h
  split at h
  · exact absurd h (by simp)
  · split at h
    · exact absurd h (by simp)
    · split at h
      · simp only [Except.ok.injEq, Option.some.injEq] at h
        subst h
        split
        · right; rfl
        · left; rfl
      · exact absurd h (by simp)

/-- All candidates of a match list score 10 or 4. -/
theorem candsOfMatches_score (t : List Char) (cur : String) (ms : List MRes) (l : List Cand)
    (h : candsOfMatches t cur ms = Except.ok l) :
    ∀ c ∈ l, c.score = 10 ∨ c.score = 4 := by
  induction ms generalizing l with
  | nil =>
    simp only [candsOfMatches, Except.ok.injEq] at h
    subst h
    simp
  | cons m ms ih =>
    rw [candsOfMatches] at h
    cases hc : candFrom t cur m with
    | error e => rw [hc] at h; exact absurd h (by simp)
    | ok c? =>
      rw [hc] at h
      cases hr : candsOfMatches t cur ms with
      | error e => rw [hr] at h; exact absurd h (by simp)
      | ok rest =>
        rw [hr] at h
        cases c? with
        | none =>
          simp only [Except.ok.injEq] at h
          subst h
          exact ih rest hr
        | some c =>
          simp only [Except.ok.injEq] at h
          subst h
          intro y hy
          rcases List.mem_cons.mp hy with hy | hy
          · subst hy; exact candFrom_score t cur m y hc
          · exact ih rest hr y hy

/-- All candidates collected over the pattern list score 10 or 4. -/
theorem buildCands_score (t : List Char) (ps : List (RE × String)) (l : List Cand)
    (h : buildCands t ps = Except.ok l) : ∀ c ∈ l, c.score = 10 ∨ c.score = 4 := by
  induction ps generalizing l with
  | nil =>
    simp only [buildCands, Except.ok.injEq] at h
    subst h
    simp
  | cons pc ps ih =>
    rw [buildCands] at h
    cases ha : candsOfMatches t pc.2 (refinditer pc.1 t) with
    | error e => rw [ha] at h; exact absurd h (by simp)
    | ok a =>
      rw [ha] at h
      cases hb : buildCands t ps with
      | error e => rw [hb] at h; exact absurd h (by simp)
      | ok b =>
        rw [hb] at h
        simp only [Except.ok.injEq] at h
        subst h
        intro c hc
        rcases List.mem_append.mp hc with hc | hc
        · exact candsOfMatches_score t pc.2 _ a ha c hc
        · exact ih b hb c hc

/-- Reduction of detect_amount_currency once its candidate list is known. -/
theorem detect_amount_eq (text : String) (l : List Cand)
    (h : buildCands (amountText text) amountPatterns = Except.ok l) :
    detect_amount_currency text =
      match (sortCandsDesc l).head? with
      | none => Except.ok (none, "ARS")
      | some best => Except.ok (some best.amount, best.currency) := by
  unfold detect_amount_currency
  rw [h]

/-- The decoy-suppression text of the specification: a rent clause of
650000 and a larger security-deposit clause of 1300000. -/
def decoyC8Text : String :=
  "El canon locativo asciende a $ 650.000. El valor mensual del depósito de garantía asciende a $ 1.300.000."

/-- A tie-break text: the bare-dollar pattern matches at position 0 with
amount 100, the filler keeps the parenthesized pattern from reaching the
later clause from the early anchor, and the parenthesized pattern
matches only at position 211 with amount 500. -/
def tieC8Text : String :=
  "alquiler mensual: $ 100. " ++ String.mk (List.replicate 185 'x') ++ " canon locativo ($ 500)."

/-- C8, counterexample: all three candidates of the tie text score 10,
the candidate with amount 100 comes from the match starting at position
0 while every 500 candidate comes from matches starting at position 211,
yet the resolver returns 500: ties resolve to pattern-priority order
(pattern 1 before pattern 2), not to document order. -/
theorem C8_counterexample :
    buildCands (amountText tieC8Text) amountPatterns =
      Except.ok [⟨10, 500, "ARS"⟩, ⟨10, 100, "ARS"⟩, ⟨10, 500, "ARS"⟩] ∧
    detect_amount_currency tieC8Text = Except.ok (some (500 : Rat), "ARS") ∧
    (refinditer amountPat1 (amountText tieC8Text)).map (fun m => m.mstart) = [211] ∧
    (refinditer amountPat2 (amountText tieC8Text)).map (fun m => m.mstart) = [0, 211] ∧
    (500 : Rat) ≠ (100 : Rat) := by
  refine ⟨by decide, by decide, by decide, by decide, by norm_num⟩

/-- C8, amended: every candidate scores base 10 with 6 subtracted under a
decoy keyword in the matched window; the resolver returns the candidate
of maximal score that comes first in collection order, which is
pattern-priority order (the six patterns in their listed order, matches
of each pattern in document order) rather than global document order;
on the specification's decoy scenario it selects 650000 over the 1300000
deposit. -/
theorem C8_amended :
    (∀ text : String, ∀ c cs,
      buildCands (amountText text) amountPatterns = Except.ok (c :: cs) →
      ∃ pre best post, c :: cs = pre ++ best :: post ∧
        detect_amount_currency text = Except.ok (some best.amount, best.currency) ∧
        (∀ x ∈ c :: cs, x.score ≤ best.score) ∧
        (∀ x ∈ pre, x.score < best.score)) ∧
    (∀ text : String, ∀ l, buildCands (amountText text) amountPatterns = Except.ok l →
      ∀ x ∈ l, x.score = 10 ∨ x.score = 4) ∧
    detect_amount_currency decoyC8Text = Except.ok (some (650000 : Rat), "ARS") ∧
    buildCands (amountText decoyC8Text) amountPatterns =
      Except.ok [⟨10, 650000, "ARS"⟩, ⟨4, 1300000, "ARS"⟩] := by
  refine ⟨?_, ?_, by decide, by decide⟩
  · intro text c cs h
    cases hb : (sortCandsDesc (c :: cs)).head? with
    | none =>
      rw [List.head?_eq_none_iff] at hb
      exact absurd (sortCandsDesc_eq_nil _ hb) (by simp)
    | some best =>
      obtain ⟨hmax, pre, post, hdec, hpre⟩ := sortCandsDesc_head (c :: cs) best hb
      refine ⟨pre, best, post, hdec, ?_, hmax, hpre⟩
      rw [detect_amount_eq text (c :: cs) h, hb]
  · intro text l h
    exact buildCands_score (amountText text) amountPatterns l h

/-- C8, witness: the amended selection theorem instantiated on the decoy
scenario. -/
theorem C8_amended_witness :
    buildCands (amountText decoyC8Text) amountPatterns =
      Except.ok (⟨10, 650000, "ARS"⟩ :: [⟨4, 1300000, "ARS"⟩]) ∧
    (∃ pre best post,
      (⟨10, 650000, "ARS"⟩ : Cand) :: [⟨4, 1300000, "ARS"⟩] = pre ++ best :: post ∧
      detect_amount_currency decoyC8Text = Except.ok (some best.amount, best.currency) ∧
      (∀ x ∈ (⟨10, 650000, "ARS"⟩ : Cand) :: [⟨4, 1300000, "ARS"⟩], x.score ≤ best.score) ∧
      (∀ x ∈ pre, x.score < best.score)) :=
  ⟨by decide,
   C8_amended.1 decoyC8Text ⟨10, 650000, "ARS"⟩ [⟨4, 1300000, "ARS"⟩] (by decide)⟩


/-! Normalisation lemmas. -/

/-- The no-break-space replacement does not change the non-whitespace
subsequence. -/
theorem nbspMap_filter (l : List Char) :
    (l.map (fun c => if c = '\u00A0' then ' ' else c)).filter (fun c => !(pySpace c)) =
      l.filter (fun c => !(pySpace c)) := by
  induction l with
  | nil => rfl
  | cons c cs ih =>
    by_cases hc : c = '\u00A0'
    · subst hc
      rw [List.map_cons, if_pos rfl, List.filter_cons_of_neg (by decide),
        List.filter_cons_of_neg (by decide)]
      exact ih
    · rw [List.map_cons, if_neg hc, List.filter_cons, List.filter_cons, ih]

/-- Whitespace collapsing does not change the non-whitespace subsequence. -/
theorem collapseWs_filter (l : List Char) (b : Bool) :
    (collapseWsAux l b).filter (fun c => !(pySpace c)) =
      l.filter (fun c => !(pySpace c)) := by
  induction l generalizing b with
  | nil => rfl
  | cons c cs ih =>
    simp only [collapseWsAux]
    by_cases hc : pySpace c = true
    · rw [if_pos hc]
      by_cases hb : b = true
      · rw [if_pos hb, ih, List.filter_cons_of_neg (by simp [hc])]
      · rw [if_neg hb, List.filter_cons_of_neg (by decide), ih,
          List.filter_cons_of_neg (by simp [hc])]
    · rw [if_neg hc, List.filter_cons_of_pos (by simp [hc]), ih,
        List.filter_cons_of_pos (by simp [hc])]

/-- Dropping a whitespace run does not change the non-whitespace
subsequence. -/
theorem dropWhile_filter_space (l : List Char) :
    (l.dropWhile pySpace).filter (fun c => !(pySpace c)) =
      l.filter (fun c => !(pySpace c)) := by
  induction l with
  | nil => rfl
  | cons c cs ih =>
    rw [List.dropWhile_cons]
    by_cases hc : pySpace c = true
    · rw [if_pos hc, ih, List.filter_cons_of_neg (by simp [hc])]
    · rw [if_neg hc]

/-- Stripping does not change the non-whitespace subsequence. -/
theorem stripChars_filter (l : List Char) :
    (stripChars pySpace l).filter (fun c => !(pySpace c)) =
      l.filter (fun c => !(pySpace c)) := by
  unfold stripChars
  rw [List.filter_reverse, dropWhile_filter_space, List.filter_reverse,
    List.reverse_reverse, dropWhile_filter_space]

/-- Every character of the collapsed text is a plain space or a
non-whitespace character of the input. -/
theorem collapseWs_mem (l : List Char) (b : Bool) (c : Char)
    (h : c ∈ collapseWsAux l b) : c = ' ' ∨ pySpace c = false := by
  induction l generalizing b with
  | nil => simp [collapseWsAux] at h
  | cons d ds ih =>
    simp only [collapseWsAux] at h
    by_cases hd : pySpace d = true
    · rw [if_pos hd] at h
      by_cases hb : b = true
      · rw [if_pos hb] at h
        exact ih true h
      · rw [if_neg hb] at h
        rcases List.mem_cons.mp h with h | h
        · exact Or.inl h
        · exact ih true h
    · rw [if_neg hd] at h
      rcases List.mem_cons.mp h with h | h
      · subst h
        exact Or.inr (Bool.eq_false_iff.mpr hd)
      · exact ih false h

/-- Stripping only removes characters. -/
theorem mem_stripChars (p : Char → Bool) (l : List Char) (c : Char)
    (h : c ∈ stripChars p l) : c ∈ l := by
  unfold stripChars at h
  rw [List.mem_reverse] at h
  have h2 := (List.dropWhile_suffix p).sublist.subset h
  rw [List.mem_reverse] at h2
  exact (List.dropWhile_suffix p).sublist.subset h2

/-- The collapsed text never has two adjacent whitespace characters, and
under an active space flag it never begins with whitespace. -/
theorem collapseWs_chain (l : List Char) : ∀ b : Bool,
    List.Chain' (fun a c => ¬(pySpace a = true ∧ pySpace c = true)) (collapseWsAux l b) ∧
    (b = true → ∀ c, (collapseWsAux l b).head? = some c → pySpace c = false) := by
  induction l with
  | nil => intro b; exact ⟨List.chain'_nil, by intro _ c hc; simp [collapseWsAux] at hc⟩
  | cons d ds ih =>
    intro b
    simp only [collapseWsAux]
    by_cases hd : pySpace d = true
    · rw [if_pos hd]
      by_cases hb : b = true
      · rw [if_pos hb]
        exact ⟨(ih true).1, fun _ => (ih true).2 rfl⟩
      · rw [if_neg hb]
        refine ⟨?_, by simp [hb]⟩
        rw [List.chain'_cons']
        refine ⟨?_, (ih true).1⟩
        intro y hy
        have := (ih true).2 rfl y hy
        simp [this]
    · rw [if_neg hd]
      refine ⟨?_, ?_⟩
      · rw [List.chain'_cons']
        refine ⟨?_, (ih false).1⟩
        intro y hy
        simp [hd]
      · intro _ c hc
        simp only [List.head?_cons, Option.some.injEq] at hc
        subst hc
        exact Bool.eq_false_iff.mpr hd

/-- The adjacency relation of collapseWs_chain under flip. -/
theorem noTwo_flip (l : List Char)
    (h : List.Chain' (fun a c => ¬(pySpace a = true ∧ pySpace c = true)) l) :
    List.Chain' (flip (fun a c => ¬(pySpace a = true ∧ pySpace c = true))) l :=
  List.Chain'.imp (fun _ _ hab hc => hab ⟨hc.2, hc.1⟩) h

/-- Stripping preserves the no-adjacent-whitespace property. -/
theorem noTwo_stripChars (l : List Char)
    (h : List.Chain' (fun a c => ¬(pySpace a = true ∧ pySpace c = true)) l) :
    List.Chain' (fun a c => ¬(pySpace a = true ∧ pySpace c = true))
      (stripChars pySpace l) := by
  unfold stripChars
  have h1 := List.Chain'.suffix h (List.dropWhile_suffix pySpace)
  have h3 : List.Chain' (fun a c => ¬(pySpace a = true ∧ pySpace c = true))
      ((l.dropWhile pySpace).reverse) :=
    List.chain'_reverse.mpr (noTwo_flip _ h1)
  have h4 := List.Chain'.suffix h3 (List.dropWhile_suffix pySpace)
  exact List.chain'_reverse.mpr (noTwo_flip _ h4)

/-- The head of a dropWhile run fails the predicate. -/
theorem dropWhile_head_not (p : Char → Bool) (l : List Char) (c : Char)
    (h : (l.dropWhile p).head? = some c) : p c = false := by
  induction l with
  | nil => simp at h
  | cons d ds ih =>
    rw [List.dropWhile_cons] at h
    split at h
    · exact ih h
    · rename_i hd
      simp only [List.head?_cons, Option.some.injEq] at h
      subst h
      exact Bool.eq_false_iff.mpr hd

/-- The last element of a stripped list fails the predicate. -/
theorem stripChars_last_not (p : Char → Bool) (l : List Char) (c : Char)
    (h : (stripChars p l).getLast? = some c) : p c = false := by
  unfold stripChars at h
  rw [List.getLast?_reverse] at h
  exact dropWhile_head_not p _ c h

/-- The head of a stripped list fails the predicate. -/
theorem stripChars_head_not (p : Char → Bool) (l : List Char) (c : Char)
    (h : (stripChars p l).head? = some c) : p c = false := by
  unfold stripChars at h
  rw [List.head?_reverse] at h
  have hne : (l.dropWhile p).reverse.dropWhile p ≠ [] := by
    intro he
    rw [he] at h
    simp at h
  obtain ⟨t, ht⟩ := List.dropWhile_suffix (l := (l.dropWhile p).reverse) p
  have h2 : ((l.dropWhile p).reverse).getLast? = some c := by
    rw [← ht]
    rw [List.getLast?_append_of_ne_nil t hne]
    exact h
  rw [List.getLast?_reverse] at h2
  exact dropWhile_head_not p l c h2


/-- The raw-versus-normalized probe text for the date resolver: the end
date is split across a line break, which the second date pattern cannot
cross (its captures exclude newlines). -/
def c9raw : String :=
  "a partir del día 1 de febrero del 2026 y terminará el día 28\nde febrero del 2027"

/-- C9, counterexample: normalize leaves curly quotes unchanged (the
claim says they are mapped to straight quotes), and the resolvers run on
the raw decoded text, not on normalize of it: on the probe text the
orchestrator returns a null end date although the same resolver on the
normalized text finds it. -/
theorem C9_counterexample :
    normalize ("“hola”  y\n\nchau ") = ("“hola” y chau") ∧
    ('“' ∈ (normalize ("“hola”")).data) ∧
    detect_dates c9raw = Except.ok (some (("2026-02-01").data), none) ∧
    detect_dates (normalize c9raw) =
      Except.ok (some (("2026-02-01").data), some (("2027-02-28").data)) ∧
    extract_fields c9raw =
      Except.ok ⟨none, none, none, some ("2026-02-01"), none, none, "ARS", ⟨"NONE", none⟩⟩ := by
  refine ⟨by decide, by decide, by decide, by decide, by decide⟩

/-- C9, amended: normalize replaces no-break spaces, collapses every
whitespace run (line breaks included) to a single plain space and strips
the ends, leaving the non-whitespace characters, curly quotes included,
untouched; the resolvers receive the raw decoded text, normalize being
applied only to matched fragments. -/
theorem C9_amended :
    (∀ s : String, (normalize s).data.filter (fun c => !(pySpace c)) =
        s.data.filter (fun c => !(pySpace c))) ∧
    (∀ s : String, ∀ c ∈ (normalize s).data, c = ' ' ∨ pySpace c = false) ∧
    (∀ s : String, List.Chain' (fun a c => ¬(pySpace a = true ∧ pySpace c = true))
        (normalize s).data) ∧
    (∀ s : String, ∀ c : Char,
        ((normalize s).data.head? = some c → pySpace c = false) ∧
        ((normalize s).data.getLast? = some c → pySpace c = false)) ∧
    normalize ("“El  Locador”\n\ny “La Locataria”") = ("“El Locador” y “La Locataria”") := by
  refine ⟨?_, ?_, ?_, ?_, by decide⟩
  · intro s
    show (normalizeL s.data).filter _ = _
    unfold normalizeL
    rw [stripChars_filter, collapseWs_filter, nbspMap_filter]
  · intro s c h
    have h2 := mem_stripChars pySpace _ c h
    exact collapseWs_mem _ false c h2
  · intro s
    exact noTwo_stripChars _ ((collapseWs_chain _ false).1)
  · intro s c
    exact ⟨stripChars_head_not pySpace _ c, stripChars_last_not pySpace _ c⟩

/-- C9, witness: the general head property instantiated on a padded text
whose first kept character is a curly quote. -/
theorem C9_amended_witness :
    (normalize ("  “a  b”  ")).data.head? = some '“' ∧ pySpace '“' = false :=
  ⟨by decide, (C9_amended.2.2.2.1 ("  “a  b”  ") '“').1 (by decide)⟩


/-! ISO-shape lemmas for the date resolver outputs. -/

/-- Calendar validity of an ISO string: exactly what _iso_to_date accepts
(YYYY-MM-DD digits, month 1 to 12, day within the month). -/
def isValidISO (s : List Char) : Bool :=
  match iso_to_date s with
  | Except.ok _ => true
  | Except.error _ => false

/-- Digit shape of an ISO string: four digits, hyphen, two digits,
hyphen, two digits, with no validity check. -/
def isShapeISO (s : List Char) : Bool :=
  match s with
  | [y1, y2, y3, y4, h1, m1, m2, h2, d1, d2] =>
    y1.isDigit && y2.isDigit && y3.isDigit && y4.isDigit && h1 = '-' &&
    m1.isDigit && m2.isDigit && h2 = '-' && d1.isDigit && d2.isDigit
  | _ => false

/-- One unfolding step of the digit renderer. -/
theorem natDigitsAux_unfold (f n : Nat) :
    natDigitsAux (f + 1) n =
      if n = 0 then [] else natDigitsAux f (n / 10) ++ [Char.ofNat (48 + n % 10)] := rfl

/-- The character of a digit is a digit character. -/
theorem digitChar_isDigit (r : Nat) (h : r < 10) : (Char.ofNat (48 + r)).isDigit = true := by
  interval_cases r <;> decide

/-- One-digit numbers render as one digit character. -/
theorem natDigits_shape1 (n : Nat) (h : n ≤ 9) :
    (natDigits n).length = 1 ∧ (natDigits n).all Char.isDigit = true := by
  interval_cases n <;> decide

/-- Two-digit numbers render as two digit characters. -/
theorem natDigits_shape2 (n : Nat) (h1 : 10 ≤ n) (h2 : n ≤ 99) :
    (natDigits n).length = 2 ∧ (natDigits n).all Char.isDigit = true := by
  have d0 := digitChar_isDigit (n % 10) (by omega)
  have d1 := digitChar_isDigit (n / 10 % 10) (by omega)
  unfold natDigits
  rw [if_neg (by omega)]
  rw [natDigitsAux_unfold, if_neg (by omega)]
  rw [natDigitsAux_unfold, if_neg (by omega)]
  rw [natDigitsAux_unfold, if_pos (by omega)]
  refine ⟨by simp, by simp [d0, d1]⟩

/-- Three-digit numbers render as three digit characters. -/
theorem natDigits_shape3 (n : Nat) (h1 : 100 ≤ n) (h2 : n ≤ 999) :
    (natDigits n).length = 3 ∧ (natDigits n).all Char.isDigit = true := by
  have d0 := digitChar_isDigit (n % 10) (by omega)
  have d1 := digitChar_isDigit (n / 10 % 10) (by omega)
  have d2 := digitChar_isDigit (n / 10 / 10 % 10) (by omega)
  unfold natDigits
  rw [if_neg (by omega)]
  rw [natDigitsAux_unfold, if_neg (by omega)]
  rw [natDigitsAux_unfold, if_neg (by omega)]
  rw [natDigitsAux_unfold, if_neg (by omega)]
  rw [natDigitsAux_unfold, if_pos (by omega)]
  refine ⟨by simp, by simp [d0, d1, d2]⟩

/-- Four-digit numbers render as four digit characters. -/
theorem natDigits_shape4 (n : Nat) (h1 : 1000 ≤ n) (h2 : n ≤ 9999) :
    (natDigits n).length = 4 ∧ (natDigits n).all Char.isDigit = true := by
  have d0 := digitChar_isDigit (n % 10) (by omega)
  have d1 := digitChar_isDigit (n / 10 % 10) (by omega)
  have d2 := digitChar_isDigit (n / 10 / 10 % 10) (by omega)
  have d3 := digitChar_isDigit (n / 10 / 10 / 10 % 10) (by omega)
  unfold natDigits
  rw [if_neg (by omega)]
  rw [natDigitsAux_unfold, if_neg (by omega)]
  rw [natDigitsAux_unfold, if_neg (by omega)]
  rw [natDigitsAux_unfold, if_neg (by omega)]
  rw [natDigitsAux_unfold, if_neg (by omega)]
  rw [natDigitsAux_unfold, if_pos (by omega)]
  refine ⟨by simp, by simp [d0, d1, d2, d3]⟩

/-- The zero-padded month and day fields have exactly two digit
characters for every value the capture grammars can produce. -/
theorem pad2_shape (n : Nat) (h : n ≤ 99) :
    (pad2 n).length = 2 ∧ (pad2 n).all Char.isDigit = true := by
  unfold pad2
  by_cases hn : n < 10
  · rw [if_pos hn]
    obtain ⟨hl, hd⟩ := natDigits_shape1 n (by omega)
    refine ⟨by simp [hl], by simp [hd]⟩
  · rw [if_neg hn]
    exact natDigits_shape2 n (by omega) h

/-- The padded year field has exactly four digit characters up to 9999. -/
theorem pad4_shape (n : Nat) (h : n ≤ 9999) :
    (pad4 n).length = 4 ∧ (pad4 n).all Char.isDigit = true := by
  unfold pad4
  by_cases h1 : n < 10
  · rw [if_pos h1]
    obtain ⟨hl, hd⟩ := natDigits_shape1 n (by omega)
    refine ⟨by simp [hl], by simp [hd]⟩
  · rw [if_neg h1]
    by_cases h2 : n < 100
    · rw [if_pos h2]
      obtain ⟨hl, hd⟩ := natDigits_shape2 n (by omega) (by omega)
      refine ⟨by simp [hl], by simp [hd]⟩
    · rw [if_neg h2]
      by_cases h3 : n < 1000
      · rw [if_pos h3]
        obtain ⟨hl, hd⟩ := natDigits_shape3 n (by omega) (by omega)
        refine ⟨by simp [hl], by simp [hd]⟩
      · rw [if_neg h3]
        exact natDigits_shape4 n (by omega) h

/-- Assembling four year digits, two month digits and two day digits with
hyphens yields the ISO digit shape. -/
theorem isShapeISO_build (yy ma db : List Char)
    (hy : yy.length = 4) (hyd : yy.all Char.isDigit = true)
    (ha : ma.length = 2) (had : ma.all Char.isDigit = true)
    (hb : db.length = 2) (hbd : db.all Char.isDigit = true) :
    isShapeISO (yy ++ '-' :: (ma ++ '-' :: db)) = true := by
  rcases yy with _ | ⟨a1, _ | ⟨a2, _ | ⟨a3, _ | ⟨a4, _ | ⟨a5, t⟩⟩⟩⟩⟩ <;> simp at hy
  rcases ma with _ | ⟨m1, _ | ⟨m2, _ | ⟨m3, t⟩⟩⟩ <;> simp at ha
  rcases db with _ | ⟨e1, _ | ⟨e2, _ | ⟨e3, t⟩⟩⟩ <;> simp at hb
  simp only [List.all_cons, List.all_nil, Bool.and_eq_true] at hyd had hbd
  simp [isShapeISO, hyd.1, hyd.2.1, hyd.2.2.1, hyd.2.2.2.1, had.1, had.2.1, hbd.1, hbd.2.1]

/-! Capture soundness of the matcher: every capture group in the date
patterns is a bounded repetition of a single character class, so a
successful match records, for each group, a slice of the input made of
class characters whose length lies within the repetition bounds.  These
lemmas lift that invariant from mat through research to the parsers. -/

/-- A successful match of a single character class consumed exactly one
class character and invoked the continuation one position further with
the groups untouched. -/
theorem mat_cls_step (p : Char → Bool) (F : Nat) (rem : List Char) (prev : Option Char)
    (pos : Nat) (g : Groups)
    (K : List Char → Option Char → Nat → Groups → Option (Nat × Groups))
    (res : Nat × Groups) (h : mat F (.cls p) rem prev pos g K = some res) :
    ∃ c rest, rem = c :: rest ∧ p c = true ∧ K rest (some c) (pos + 1) g = some res := by
  cases F with
  | zero => exact Option.noConfusion h
  | succ F2 =>
    cases rem with
    | nil => exact Option.noConfusion h
    | cons c rest =>
      simp only [mat] at h
      by_cases hc : p c = true
      · rw [if_pos hc] at h
        exact ⟨c, rest, rfl, hc, h⟩
      · rw [if_neg hc] at h
        exact Option.noConfusion h

/-- A successful match of a bounded repetition of a character class
consumed j class characters with j within the bounds, and invoked the
continuation j positions further with the groups untouched. -/
theorem mat_rep_cls (p : Char → Bool) :
    ∀ (fuel lo : Nat) (hi : Option Nat) (lz : Bool) (rem : List Char) (prev : Option Char)
      (pos : Nat) (g : Groups)
      (k : List Char → Option Char → Nat → Groups → Option (Nat × Groups))
      (res : Nat × Groups),
      (∀ h2, hi = some h2 → lo ≤ h2) →
      mat fuel (.rep (.cls p) lo hi lz) rem prev pos g k = some res →
      ∃ j prev2, j ≤ rem.length ∧ (rem.take j).all p = true ∧ lo ≤ j ∧
        (∀ h2, hi = some h2 → j ≤ h2) ∧
        k (rem.drop j) prev2 (pos + j) g = some res := by
  intro fuel
  induction fuel with
  | zero =>
    intro lo hi lz rem prev pos g k res hlh h
    exact Option.noConfusion h
  | succ F ih =>
    intro lo hi lz rem prev pos g k res hlh h
    cases lo with
    | succ l =>
      simp only [mat] at h
      obtain ⟨c, rest, hrc, hc, hK⟩ := mat_cls_step p F rem prev pos g _ res h
      have hK2 : mat F (.rep (.cls p) l (Option.map (fun m => m - 1) hi) lz)
          rest (some c) (pos + 1) g k = some res := hK
      have hside : ∀ h2, Option.map (fun m => m - 1) hi = some h2 → l ≤ h2 := by
        intro h2 hh2
        cases hi with
        | none => exact Option.noConfusion hh2
        | some hv =>
          have hv2 : hv - 1 = h2 := by injection hh2
          have := hlh hv rfl
          omega
      obtain ⟨j, prev2, hj1, hj2, hj3, hj4, hj5⟩ :=
        ih l (Option.map (fun m => m - 1) hi) lz rest (some c) (pos + 1) g k res hside hK2
      subst hrc
      refine ⟨j + 1, prev2, by simp; omega, ?_, by omega, ?_, ?_⟩
      · rw [List.take_succ_cons]
        simp [hc, hj2]
      · intro h2 hh2
        cases hi with
        | none => exact Option.noConfusion hh2
        | some hv =>
          have e1 : Option.map (fun m => m - 1) (some hv) = some (hv - 1) := rfl
          have h3 := hj4 (hv - 1) e1
          have h4 := hlh hv rfl
          have h5 : hv = h2 := by injection hh2
          omega
      · rw [List.drop_succ_cons]
        have e1 : pos + (j + 1) = pos + 1 + j := by omega
        rw [e1]
        exact hj5
    | zero =>
      cases hi with
      | some hv =>
        cases hv with
        | zero =>
          simp only [mat] at h
          refine ⟨0, prev, by omega, by simp, by omega, ?_, by simpa using h⟩
          intro h2 hh2
          have h3 : 0 = h2 := by injection hh2
          omega
        | succ hv2 =>
          cases lz with
          | true =>
            simp only [mat] at h
            have h2 : (match k rem prev pos g with
              | some r => some r
              | none => mat F (.cls p) rem prev pos g
                  (fun r pv q h3 => if q = pos then none
                    else mat F (.rep (.cls p) 0 (some hv2 : Option Nat) true) r pv q h3 k)) =
                some res := h
            cases hk0 : k rem prev pos g with
            | some r =>
              rw [hk0] at h2
              have h3 : r = res := by injection h2
              subst h3
              exact ⟨0, prev, by omega, by simp, by omega, fun h4 hh4 => by omega,
                by simpa using hk0⟩
            | none =>
              rw [hk0] at h2
              obtain ⟨c, rest, hrc, hc, hK⟩ := mat_cls_step p F rem prev pos g _ res h2
              have hK2 : (if pos + 1 = pos then none
                  else mat F (.rep (.cls p) 0 (some hv2 : Option Nat) true)
                    rest (some c) (pos + 1) g k) = some res := hK
              rw [if_neg (by omega)] at hK2
              obtain ⟨j, prev2, hj1, hj2, hj3, hj4, hj5⟩ :=
                ih 0 (some hv2) true rest (some c) (pos + 1) g k res
                  (by intro h4 hh4; omega) hK2
              subst hrc
              refine ⟨j + 1, prev2, by simp; omega, ?_, by omega, ?_, ?_⟩
              · rw [List.take_succ_cons]
                simp [hc, hj2]
              · intro h4 hh4
                have h5 := hj4 hv2 rfl
                have h6 : hv2 + 1 = h4 := by injection hh4
                omega
              · rw [List.drop_succ_cons]
                have e1 : pos + (j + 1) = pos + 1 + j := by omega
                rw [e1]
                exact hj5
          | false =>
            simp only [mat] at h
            have h2 : (match mat F (.cls p) rem prev pos g
                (fun r pv q h3 => if q = pos then none
                  else mat F (.rep (.cls p) 0 (some hv2 : Option Nat) false) r pv q h3 k) with
              | some r => some r
              | none => k rem prev pos g) = some res := h
            cases hb : mat F (.cls p) rem prev pos g
                (fun r pv q h3 => if q = pos then none
                  else mat F (.rep (.cls p) 0 (some hv2 : Option Nat) false) r pv q h3 k) with
            | some r =>
              rw [hb] at h2
              have h3 : r = res := by injection h2
              subst h3
              obtain ⟨c, rest, hrc, hc, hK⟩ := mat_cls_step p F rem prev pos g _ r hb
              have hK2 : (if pos + 1 = pos then none
                  else mat F (.rep (.cls p) 0 (some hv2 : Option Nat) false)
                    rest (some c) (pos + 1) g k) = some r := hK
              rw [if_neg (by omega)] at hK2
              obtain ⟨j, prev2, hj1, hj2, hj3, hj4, hj5⟩ :=
                ih 0 (some hv2) false rest (some c) (pos + 1) g k r
                  (by intro h4 hh4; omega) hK2
              subst hrc
              refine ⟨j + 1, prev2, by simp; omega, ?_, by omega, ?_, ?_⟩
              · rw [List.take_succ_cons]
                simp [hc, hj2]
              · intro h4 hh4
                have h5 := hj4 hv2 rfl
                have h6 : hv2 + 1 = h4 := by injection hh4
                omega
              · rw [List.drop_succ_cons]
                have e1 : pos + (j + 1) = pos + 1 + j := by omega
                rw [e1]
                exact hj5
            | none =>
              rw [hb] at h2
              exact ⟨0, prev, by omega, by simp, by omega, fun h4 hh4 => by omega,
                by simpa using h2⟩
      | none =>
        cases lz with
        | true =>
          simp only [mat] at h
          have h2 : (match k rem prev pos g with
            | some r => some r
            | none => mat F (.cls p) rem prev pos g
                (fun r pv q h3 => if q = pos then none
                  else mat F (.rep (.cls p) 0 (none : Option Nat) true) r pv q h3 k)) =
              some res := h
          cases hk0 : k rem prev pos g with
          | some r =>
            rw [hk0] at h2
            have h3 : r = res := by injection h2
            subst h3
            exact ⟨0, prev, by omega, by simp, by omega,
              fun h4 hh4 => Option.noConfusion hh4, by simpa using hk0⟩
          | none =>
            rw [hk0] at h2
            obtain ⟨c, rest, hrc, hc, hK⟩ := mat_cls_step p F rem prev pos g _ res h2
            have hK2 : (if pos + 1 = pos then none
                else mat F (.rep (.cls p) 0 (none : Option Nat) true)
                  rest (some c) (pos + 1) g k) = some res := hK
            rw [if_neg (by omega)] at hK2
            obtain ⟨j, prev2, hj1, hj2, hj3, hj4, hj5⟩ :=
              ih 0 none true rest (some c) (pos + 1) g k res
                (by intro h4 hh4; exact Option.noConfusion hh4) hK2
            subst hrc
            refine ⟨j + 1, prev2, by simp; omega, ?_, by omega,
              fun h4 hh4 => Option.noConfusion hh4, ?_⟩
            · rw [List.take_succ_cons]
              simp [hc, hj2]
            · rw [List.drop_succ_cons]
              have e1 : pos + (j + 1) = pos + 1 + j := by omega
              rw [e1]
              exact hj5
        | false =>
          simp only [mat] at h
          have h2 : (match mat F (.cls p) rem prev pos g
              (fun r pv q h3 => if q = pos then none
                else mat F (.rep (.cls p) 0 (none : Option Nat) false) r pv q h3 k) with
            | some r => some r
            | none => k rem prev pos g) = some res := h
          cases hb : mat F (.cls p) rem prev pos g
              (fun r pv q h3 => if q = pos then none
                else mat F (.rep (.cls p) 0 (none : Option Nat) false) r pv q h3 k) with
          | some r =>
            rw [hb] at h2
            have h3 : r = res := by injection h2
            subst h3
            obtain ⟨c, rest, hrc, hc, hK⟩ := mat_cls_step p F rem prev pos g _ r hb
            have hK2 : (if pos + 1 = pos then none
                else mat F (.rep (.cls p) 0 (none : Option Nat) false)
                  rest (some c) (pos + 1) g k) = some r := hK
            rw [if_neg (by omega)] at hK2
            obtain ⟨j, prev2, hj1, hj2, hj3, hj4, hj5⟩ :=
              ih 0 none false rest (some c) (pos + 1) g k r
                (by intro h4 hh4; exact Option.noConfusion hh4) hK2
            subst hrc
            refine ⟨j + 1, prev2, by simp; omega, ?_, by omega,
              fun h4 hh4 => Option.noConfusion hh4, ?_⟩
            · rw [List.take_succ_cons]
              simp [hc, hj2]
            · rw [List.drop_succ_cons]
              have e1 : pos + (j + 1) = pos + 1 + j := by omega
              rw [e1]
              exact hj5
          | none =>
            rw [hb] at h2
            exact ⟨0, prev, by omega, by simp, by omega,
              fun h4 hh4 => Option.noConfusion hh4, by simpa using h2⟩

/-- Stepping one consumed character keeps the drop invariant. -/
theorem drop_cons_succ (inp rem : List Char) (pos : Nat) (c : Char) (rest : List Char)
    (hrem : rem = List.drop pos inp) (hrc : rem = c :: rest) :
    rest = List.drop (pos + 1) inp ∧ pos + 1 ≤ inp.length := by
  have hd : List.drop pos inp = c :: rest := by rw [← hrem, hrc]
  have hlen : (List.drop pos inp).length = rest.length + 1 := by rw [hd]; simp
  rw [List.length_drop] at hlen
  constructor
  · have h2 : List.drop (pos + 1) inp = List.drop 1 (List.drop pos inp) :=
      (List.drop_drop 1 pos inp).symm
    rw [h2, hd]
    simp
  · omega

/-- Capture specification: for each group index, the character class and
repetition bounds of that group's subpattern, if constrained. -/
def CapSpec : Type := Nat → Option ((Char → Bool) × Nat × Option Nat)

/-- Syntactic well-formedness of a pattern for a capture specification:
every capture group's body is the specified bounded repetition of the
specified character class (the shape of every group in the date
patterns). -/
def GroupsWF (spec : CapSpec) : RE → Prop
  | .eps => True
  | .cls _ => True
  | .wb => True
  | .bos => True
  | .seq a b => GroupsWF spec a ∧ GroupsWF spec b
  | .alt a b => GroupsWF spec a ∧ GroupsWF spec b
  | .rep a _ _ _ => GroupsWF spec a
  | .grp n a => ∃ p lo hi lz, spec n = some (p, lo, hi) ∧
      (∀ h2, hi = some h2 → lo ≤ h2) ∧ a = RE.rep (RE.cls p) lo hi lz

/-- Groups that every successful match of a pattern records: those not
under an alternation or a possibly-vacuous repetition. -/
def MandGroups : RE → List Nat
  | .eps => []
  | .cls _ => []
  | .wb => []
  | .bos => []
  | .alt _ _ => []
  | .seq a b => MandGroups a ++ MandGroups b
  | .rep a lo _ _ => match lo with | 0 => [] | _ + 1 => MandGroups a
  | .grp n a => n :: MandGroups a

/-- A repetition of a class has no mandatory groups. -/
theorem mandGroups_rep_cls (p : Char → Bool) (lo : Nat) (hi : Option Nat) (lz : Bool) :
    MandGroups (.rep (.cls p) lo hi lz) = [] := by
  cases lo <;> rfl

/-- A vacuous repetition has no mandatory groups. -/
theorem mandGroups_rep_zero (x : RE) (hi : Option Nat) (lz : Bool) :
    MandGroups (.rep x 0 hi lz) = [] := rfl

/-- A mandatory repetition keeps its body's mandatory groups. -/
theorem mandGroups_rep_succ (x : RE) (l : Nat) (hi : Option Nat) (lz : Bool) :
    MandGroups (.rep x (l + 1) hi lz) = MandGroups x := rfl

/-- A capture record is sound for a specification: the endpoints are
ordered and within the input, and the slice between them consists of
class characters with length within the bounds. -/
def CapOK (inp : List Char) (spec : CapSpec) (e : Nat × Nat × Nat) : Prop :=
  match spec e.1 with
  | none => True
  | some (p, lo, hi) =>
      e.2.1 ≤ e.2.2 ∧ e.2.2 ≤ inp.length ∧
      (sliceL inp e.2.1 e.2.2).all p = true ∧
      lo ≤ e.2.2 - e.2.1 ∧ ∀ h2, hi = some h2 → e.2.2 - e.2.1 ≤ h2

/-- Conclusion of the matcher soundness statement: the continuation was
invoked at a consistent position with sound new captures prepended, and
every mandatory group of the pattern among them. -/
def MatOut (inp : List Char) (spec : CapSpec) (re : RE) (g : Groups)
    (k : List Char → Option Char → Nat → Groups → Option (Nat × Groups))
    (res : Nat × Groups) : Prop :=
  ∃ rem2 prev2 pos2 gnew,
    rem2 = List.drop pos2 inp ∧ pos2 ≤ inp.length ∧
    (∀ e ∈ gnew, CapOK inp spec e) ∧
    (∀ n ∈ MandGroups re, ∃ a b, (n, a, b) ∈ gnew) ∧
    k rem2 prev2 pos2 (gnew ++ g) = some res

/-- Matcher soundness at one fuel value, quantified over patterns and
states. -/
def MatIH (inp : List Char) (spec : CapSpec) (F : Nat) : Prop :=
  ∀ (re : RE) (rem : List Char) (prev : Option Char) (pos : Nat) (g : Groups)
    (k : List Char → Option Char → Nat → Groups → Option (Nat × Groups))
    (res : Nat × Groups),
    GroupsWF spec re → rem = List.drop pos inp → pos ≤ inp.length →
    mat F re rem prev pos g k = some res → MatOut inp spec re g k res

/-- The continuation invoked directly realizes the soundness conclusion
for a vacuous repetition. -/
theorem matOut_base (inp : List Char) (spec : CapSpec) (x : RE) (hi2 : Option Nat)
    (lz : Bool) (rem : List Char) (prev : Option Char) (pos : Nat) (g : Groups)
    (k : List Char → Option Char → Nat → Groups → Option (Nat × Groups))
    (res : Nat × Groups)
    (hrem : rem = List.drop pos inp) (hpos : pos ≤ inp.length)
    (hk0 : k rem prev pos g = some res) :
    MatOut inp spec (.rep x 0 hi2 lz) g k res :=
  ⟨rem, prev, pos, [], hrem, hpos,
    fun e he => absurd he (List.not_mem_nil e),
    fun n hn => absurd (by rwa [mandGroups_rep_zero] at hn) (List.not_mem_nil n),
    hk0⟩

/-- One body step of a vacuous repetition followed by the guarded
recursive repetition realizes the soundness conclusion. -/
theorem mat_groups_rep_body (inp : List Char) (spec : CapSpec) (F : Nat)
    (IH : MatIH inp spec F) (x : RE) (hi2 : Option Nat) (lz : Bool)
    (rem : List Char) (prev : Option Char) (pos : Nat) (g : Groups)
    (k : List Char → Option Char → Nat → Groups → Option (Nat × Groups))
    (res : Nat × Groups)
    (hwx : GroupsWF spec x) (hrem : rem = List.drop pos inp) (hpos : pos ≤ inp.length)
    (hb : mat F x rem prev pos g
      (fun r pv q h2 => if q = pos then none
        else mat F (.rep x 0 hi2 lz) r pv q h2 k) = some res) :
    MatOut inp spec (.rep x 0 hi2 lz) g k res := by
  obtain ⟨rem1, prev1, pos1, gnew1, hr1, hp1, hcap1, hmand1, hk1⟩ :=
    IH x rem prev pos g _ res hwx hrem hpos hb
  have hk2 : (if pos1 = pos then none
      else mat F (.rep x 0 hi2 lz) rem1 prev1 pos1 (gnew1 ++ g) k) = some res := hk1
  by_cases hpp : pos1 = pos
  · rw [if_pos hpp] at hk2
    exact Option.noConfusion hk2
  · rw [if_neg hpp] at hk2
    obtain ⟨rem2, prev2, pos2, gnew2, hr2, hp2, hcap2, hmand2, hk3⟩ :=
      IH (.rep x 0 hi2 lz) rem1 prev1 pos1 (gnew1 ++ g) k res hwx hr1 hp1 hk2
    refine ⟨rem2, prev2, pos2, gnew2 ++ gnew1, hr2, hp2, ?_, ?_, ?_⟩
    · intro e he
      rcases List.mem_append.mp he with he2 | he2
      · exact hcap2 e he2
      · exact hcap1 e he2
    · intro n hn
      rw [mandGroups_rep_zero] at hn
      exact absurd hn (List.not_mem_nil n)
    · rw [List.append_assoc]
      exact hk3

/-- Matcher soundness: a successful match of a well-formed pattern calls
its continuation at a position within the input, with the remaining input
the drop at that position, having prepended capture records that are all
sound for the specification and include every mandatory group. -/
theorem mat_groups (inp : List Char) (spec : CapSpec) :
    ∀ fuel : Nat, MatIH inp spec fuel := by
  intro fuel
  induction fuel with
  | zero =>
    intro re rem prev pos g k res _ _ _ h
    exact Option.noConfusion h
  | succ F ih =>
    intro re rem prev pos g k res hwf hrem hpos h
    cases re with
    | eps =>
      simp only [mat] at h
      exact ⟨rem, prev, pos, [], hrem, hpos,
        fun e he => absurd he (List.not_mem_nil e),
        fun n hn => absurd hn (List.not_mem_nil n), h⟩
    | bos =>
      simp only [mat] at h
      split at h
      · exact ⟨rem, prev, pos, [], hrem, hpos,
          fun e he => absurd he (List.not_mem_nil e),
          fun n hn => absurd hn (List.not_mem_nil n), h⟩
      · exact Option.noConfusion h
    | wb =>
      simp only [mat] at h
      split at h
      · exact ⟨rem, prev, pos, [], hrem, hpos,
          fun e he => absurd he (List.not_mem_nil e),
          fun n hn => absurd hn (List.not_mem_nil n), h⟩
      · exact Option.noConfusion h
    | cls p =>
      obtain ⟨c, rest, hrc, hc, hK⟩ := mat_cls_step p (F + 1) rem prev pos g k res h
      obtain ⟨hrest, hpos1⟩ := drop_cons_succ inp rem pos c rest hrem hrc
      exact ⟨rest, some c, pos + 1, [], hrest, hpos1,
        fun e he => absurd he (List.not_mem_nil e),
        fun n hn => absurd hn (List.not_mem_nil n), hK⟩
    | seq x y =>
      simp only [mat] at h
      obtain ⟨rem1, prev1, pos1, gnew1, hr1, hp1, hcap1, hmand1, hk1⟩ :=
        ih x rem prev pos g (fun r pv q h2 => mat F y r pv q h2 k) res hwf.1 hrem hpos h
      have hk2 : mat F y rem1 prev1 pos1 (gnew1 ++ g) k = some res := hk1
      obtain ⟨rem2, prev2, pos2, gnew2, hr2, hp2, hcap2, hmand2, hk3⟩ :=
        ih y rem1 prev1 pos1 (gnew1 ++ g) k res hwf.2 hr1 hp1 hk2
      refine ⟨rem2, prev2, pos2, gnew2 ++ gnew1, hr2, hp2, ?_, ?_, ?_⟩
      · intro e he
        rcases List.mem_append.mp he with he2 | he2
        · exact hcap2 e he2
        · exact hcap1 e he2
      · intro n hn
        have hn2 : n ∈ MandGroups x ++ MandGroups y := hn
        rcases List.mem_append.mp hn2 with hn3 | hn3
        · obtain ⟨a, b, hab⟩ := hmand1 n hn3
          exact ⟨a, b, List.mem_append.mpr (Or.inr hab)⟩
        · obtain ⟨a, b, hab⟩ := hmand2 n hn3
          exact ⟨a, b, List.mem_append.mpr (Or.inl hab)⟩
      · rw [List.append_assoc]
        exact hk3
    | alt x y =>
      simp only [mat] at h
      have h2 : (match mat F x rem prev pos g k with
        | some r => some r
        | none => mat F y rem prev pos g k) = some res := h
      cases hb : mat F x rem prev pos g k with
      | some r =>
        rw [hb] at h2
        have h3 : r = res := by injection h2
        subst h3
        obtain ⟨rem1, prev1, pos1, gnew1, hr1, hp1, hcap1, hmand1, hk1⟩ :=
          ih x rem prev pos g k r hwf.1 hrem hpos hb
        exact ⟨rem1, prev1, pos1, gnew1, hr1, hp1, hcap1,
          fun n hn => absurd hn (List.not_mem_nil n), hk1⟩
      | none =>
        rw [hb] at h2
        obtain ⟨rem1, prev1, pos1, gnew1, hr1, hp1, hcap1, hmand1, hk1⟩ :=
          ih y rem prev pos g k res hwf.2 hrem hpos h2
        exact ⟨rem1, prev1, pos1, gnew1, hr1, hp1, hcap1,
          fun n hn => absurd hn (List.not_mem_nil n), hk1⟩
    | grp n x =>
      have hwf2 : ∃ p lo hi lz, spec n = some (p, lo, hi) ∧
          (∀ h2, hi = some h2 → lo ≤ h2) ∧ x = RE.rep (RE.cls p) lo hi lz := hwf
      obtain ⟨p, lo, hi, lz, hspec, hlohi, hx⟩ := hwf2
      subst hx
      simp only [mat] at h
      obtain ⟨j, prev2, hjlen, hall, hlo, hhi, hK⟩ :=
        mat_rep_cls p F lo hi lz rem prev pos g
          (fun r pv q h2 => k r pv q ((n, pos, q) :: h2)) res hlohi h
      have hK2 : k (rem.drop j) prev2 (pos + j) ((n, pos, pos + j) :: g) = some res := hK
      have hlen : rem.length = inp.length - pos := by
        rw [hrem]
        exact List.length_drop pos inp
      refine ⟨rem.drop j, prev2, pos + j, [(n, pos, pos + j)], ?_, by omega, ?_, ?_, hK2⟩
      · rw [hrem, List.drop_drop]
      · intro e he
        have he2 : e = (n, pos, pos + j) := List.mem_singleton.mp he
        subst he2
        have hok : pos ≤ pos + j ∧ pos + j ≤ inp.length ∧
            (sliceL inp pos (pos + j)).all p = true ∧
            lo ≤ pos + j - pos ∧ ∀ h2, hi = some h2 → pos + j - pos ≤ h2 := by
          have hsub : pos + j - pos = j := by omega
          refine ⟨by omega, by omega, ?_, by omega, ?_⟩
          · have hsl : sliceL inp pos (pos + j) = rem.take j := by
              simp only [sliceL, hsub, hrem]
            rw [hsl]
            exact hall
          · intro h2 hh2
            have := hhi h2 hh2
            omega
        simp only [CapOK, hspec]
        exact hok
      · intro n2 hn2
        have hn3 : n2 ∈ n :: MandGroups (RE.rep (RE.cls p) lo hi lz) := hn2
        rw [mandGroups_rep_cls] at hn3
        have hn4 : n2 = n := List.mem_singleton.mp hn3
        subst hn4
        exact ⟨pos, pos + j, List.mem_singleton.mpr rfl⟩
    | rep x lo hi lz =>
      have hwx : GroupsWF spec x := hwf
      cases lo with
      | succ l =>
        simp only [mat] at h
        obtain ⟨rem1, prev1, pos1, gnew1, hr1, hp1, hcap1, hmand1, hk1⟩ :=
          ih x rem prev pos g _ res hwx hrem hpos h
        have hk2 : mat F (.rep x l (Option.map (fun m => m - 1) hi) lz)
            rem1 prev1 pos1 (gnew1 ++ g) k = some res := hk1
        obtain ⟨rem2, prev2, pos2, gnew2, hr2, hp2, hcap2, hmand2, hk3⟩ :=
          ih (.rep x l (Option.map (fun m => m - 1) hi) lz)
            rem1 prev1 pos1 (gnew1 ++ g) k res hwx hr1 hp1 hk2
        refine ⟨rem2, prev2, pos2, gnew2 ++ gnew1, hr2, hp2, ?_, ?_, ?_⟩
        · intro e he
          rcases List.mem_append.mp he with he2 | he2
          · exact hcap2 e he2
          · exact hcap1 e he2
        · intro n hn
          rw [mandGroups_rep_succ] at hn
          obtain ⟨a, b, hab⟩ := hmand1 n hn
          exact ⟨a, b, List.mem_append.mpr (Or.inr hab)⟩
        · rw [List.append_assoc]
          exact hk3
      | zero =>
        cases hi with
        | some hv =>
          cases hv with
          | zero =>
            simp only [mat] at h
            exact matOut_base inp spec x (some 0) lz rem prev pos g k res hrem hpos h
          | succ hv2 =>
            cases lz with
            | true =>
              simp only [mat] at h
              have h2 : (match k rem prev pos g with
                | some r => some r
                | none => mat F x rem prev pos g
                    (fun r pv q h3 => if q = pos then none
                      else mat F (.rep x 0 (some hv2 : Option Nat) true) r pv q h3 k)) =
                  some res := h
              cases hk0 : k rem prev pos g with
              | some r =>
                rw [hk0] at h2
                have h3 : r = res := by injection h2
                subst h3
                exact matOut_base inp spec x (some (hv2 + 1)) true rem prev pos g k r
                  hrem hpos hk0
              | none =>
                rw [hk0] at h2
                exact mat_groups_rep_body inp spec F ih x (some hv2) true
                  rem prev pos g k res hwx hrem hpos h2
            | false =>
              simp only [mat] at h
              have h2 : (match mat F x rem prev pos g
                  (fun r pv q h3 => if q = pos then none
                    else mat F (.rep x 0 (some hv2 : Option Nat) false) r pv q h3 k) with
                | some r => some r
                | none => k rem prev pos g) = some res := h
              cases hb : mat F x rem prev pos g
                  (fun r pv q h3 => if q = pos then none
                    else mat F (.rep x 0 (some hv2 : Option Nat) false) r pv q h3 k) with
              | some r =>
                rw [hb] at h2
                have h3 : r = res := by injection h2
                subst h3
                exact mat_groups_rep_body inp spec F ih x (some hv2) false
                  rem prev pos g k r hwx hrem hpos hb
              | none =>
                rw [hb] at h2
                exact matOut_base inp spec x (some (hv2 + 1)) false rem prev pos g k res
                  hrem hpos h2
        | none =>
          cases lz with
          | true =>
            simp only [mat] at h
            have h2 : (match k rem prev pos g with
              | some r => some r
              | none => mat F x rem prev pos g
                  (fun r pv q h3 => if q = pos then none
                    else mat F (.rep x 0 (none : Option Nat) true) r pv q h3 k)) =
                some res := h
            cases hk0 : k rem prev pos g with
            | some r =>
              rw [hk0] at h2
              have h3 : r = res := by injection h2
              subst h3
              exact matOut_base inp spec x none true rem prev pos g k r hrem hpos hk0
            | none =>
              rw [hk0] at h2
              exact mat_groups_rep_body inp spec F ih x none true
                rem prev pos g k res hwx hrem hpos h2
          | false =>
            simp only [mat] at h
            have h2 : (match mat F x rem prev pos g
                (fun r pv q h3 => if q = pos then none
                  else mat F (.rep x 0 (none : Option Nat) false) r pv q h3 k) with
              | some r => some r
              | none => k rem prev pos g) = some res := h
            cases hb : mat F x rem prev pos g
                (fun r pv q h3 => if q = pos then none
                  else mat F (.rep x 0 (none : Option Nat) false) r pv q h3 k) with
            | some r =>
              rw [hb] at h2
              have h3 : r = res := by injection h2
              subst h3
              exact mat_groups_rep_body inp spec F ih x none false
                rem prev pos g k r hwx hrem hpos hb
            | none =>
              rw [hb] at h2
              exact matOut_base inp spec x none false rem prev pos g k res hrem hpos h2

/-- Search soundness: a successful search yields sound captures and
records every mandatory group, at any start state consistent with the
input. -/
theorem searchFrom_groups (inp : List Char) (spec : CapSpec) (re : RE)
    (hwf : GroupsWF spec re) :
    ∀ (steps : Nat) (rem : List Char) (prev : Option Char) (pos : Nat) (m : MRes),
      rem = List.drop pos inp → pos ≤ inp.length →
      searchFrom steps re rem prev pos inp = some m →
      (∀ e ∈ m.groups, CapOK inp spec e) ∧
      (∀ n ∈ MandGroups re, ∃ a b, (n, a, b) ∈ m.groups) := by
  intro steps
  induction steps with
  | zero =>
    intro rem prev pos m _ _ hs
    exact Option.noConfusion hs
  | succ s ihs =>
    intro rem prev pos m hrem hpos hs
    simp only [searchFrom] at hs
    cases hb : mat (fuelFor inp) re rem prev pos [] (fun _ _ q h2 => some (q, h2)) with
    | some qh =>
      obtain ⟨q2, g2⟩ := qh
      rw [hb] at hs
      have hs2 : some (⟨pos, q2, g2⟩ : MRes) = some m := hs
      have hs3 : (⟨pos, q2, g2⟩ : MRes) = m := by injection hs2
      obtain ⟨rem2, prev2, pos2, gnew, _, _, hcap, hmand, hk⟩ :=
        mat_groups inp spec (fuelFor inp) re rem prev pos [] _ (q2, g2) hwf hrem hpos hb
      have hk2 : some (pos2, gnew ++ ([] : Groups)) = some (q2, g2) := hk
      have hk3 : (pos2, gnew ++ ([] : Groups)) = (q2, g2) := by injection hk2
      have hg : gnew = g2 := by
        have := congrArg Prod.snd hk3
        simpa using this
      subst hg
      subst hs3
      exact ⟨hcap, hmand⟩
    | none =>
      rw [hb] at hs
      cases rem with
      | nil => exact Option.noConfusion hs
      | cons c rest =>
        obtain ⟨hrest, hpos1⟩ := drop_cons_succ inp (c :: rest) pos c rest hrem rfl
        exact ihs rest (some c) (pos + 1) m hrest hpos1 hs

/-- re.search soundness on a whole input. -/
theorem research_groups (inp : List Char) (spec : CapSpec) (re : RE)
    (hwf : GroupsWF spec re) (m : MRes) (h : research re inp = some m) :
    (∀ e ∈ m.groups, CapOK inp spec e) ∧
    (∀ n ∈ MandGroups re, ∃ a b, (n, a, b) ∈ m.groups) :=
  searchFrom_groups inp spec re hwf (inp.length + 1) inp none 0 m (by simp) (by omega) h


/-- A successful group lookup comes from a recorded capture. -/
theorem grpLookup_mem (g : Groups) (n a b : Nat) (h : grpLookup g n = some (a, b)) :
    (n, a, b) ∈ g := by
  induction g with
  | nil => exact Option.noConfusion h
  | cons e rest ihg =>
    obtain ⟨m2, a2, b2⟩ := e
    simp only [grpLookup] at h
    by_cases hm : m2 = n
    · rw [if_pos hm] at h
      have h2 : (a2, b2) = (a, b) := by injection h
      have ha : a2 = a := congrArg Prod.fst h2
      have hb : b2 = b := congrArg Prod.snd h2
      subst hm
      subst ha
      subst hb
      exact List.mem_cons_self _ _
    · rw [if_neg hm] at h
      exact List.mem_cons_of_mem _ (ihg h)

/-- A recorded group index always looks up to something. -/
theorem grpLookup_isSome_of_mem (g : Groups) (n a b : Nat) (h : (n, a, b) ∈ g) :
    ∃ ab, grpLookup g n = some ab := by
  induction g with
  | nil => exact absurd h (List.not_mem_nil _)
  | cons e rest ihg =>
    obtain ⟨m2, a2, b2⟩ := e
    simp only [grpLookup]
    by_cases hm : m2 = n
    · exact ⟨(a2, b2), by rw [if_pos hm]⟩
    · rw [if_neg hm]
      apply ihg
      rcases List.mem_cons.mp h with he | he
      · exfalso
        apply hm
        have := congrArg Prod.fst he
        simpa using this.symm
      · exact he

/-- The usable content of a sound capture: slice of class characters
whose length equals the position difference and lies in the bounds. -/
theorem capOK_facts (inp : List Char) (spec : CapSpec) (n a b : Nat)
    (p : Char → Bool) (lo : Nat) (hi : Option Nat)
    (hspec : spec n = some (p, lo, hi)) (hok : CapOK inp spec (n, a, b)) :
    (sliceL inp a b).all p = true ∧ (sliceL inp a b).length = b - a ∧
      lo ≤ b - a ∧ (∀ h2, hi = some h2 → b - a ≤ h2) := by
  have hok2 : a ≤ b ∧ b ≤ inp.length ∧ (sliceL inp a b).all p = true ∧
      lo ≤ b - a ∧ (∀ h2, hi = some h2 → b - a ≤ h2) := by
    simp only [CapOK, hspec] at hok
    exact hok
  obtain ⟨h1, h2, h3, h4, h5⟩ := hok2
  refine ⟨h3, ?_, h4, h5⟩
  simp only [sliceL, List.length_take, List.length_drop]
  omega

/-- A non-null group string is a slice given by a sound capture. -/
theorem grpStr_capOK (inp : List Char) (spec : CapSpec) (g : Groups) (n : Nat)
    (hcap : ∀ e ∈ g, CapOK inp spec e) (s : List Char)
    (hs : grpStr inp g n = some s) :
    ∃ a b, s = sliceL inp a b ∧ CapOK inp spec (n, a, b) := by
  unfold grpStr at hs
  rw [Option.map_eq_some'] at hs
  obtain ⟨ab, hl, he⟩ := hs
  obtain ⟨a, b⟩ := ab
  have hmem := grpLookup_mem g n a b hl
  exact ⟨a, b, he.symm, hcap (n, a, b) hmem⟩

/-- Class and length facts for a non-null group string of a sound
match. -/
theorem group_facts (inp : List Char) (spec : CapSpec) (g : Groups) (n : Nat)
    (p : Char → Bool) (lo : Nat) (hi : Option Nat)
    (hspec : spec n = some (p, lo, hi))
    (hcap : ∀ e ∈ g, CapOK inp spec e) (s : List Char)
    (hs : grpStr inp g n = some s) :
    s.all p = true ∧ lo ≤ s.length ∧ (∀ h2, hi = some h2 → s.length ≤ h2) := by
  obtain ⟨a, b, hse, hok⟩ := grpStr_capOK inp spec g n hcap s hs
  obtain ⟨f1, f2, f3, f4⟩ := capOK_facts inp spec n a b p lo hi hspec hok
  subst hse
  refine ⟨f1, by omega, ?_⟩
  intro h2 hh2
  have := f4 h2 hh2
  omega

/-- Character code bounds of a digit character. -/
theorem digit_toNat_bounds (c : Char) (h : c.isDigit = true) :
    48 ≤ c.toNat ∧ c.toNat ≤ 57 := by
  simp [Char.isDigit] at h
  obtain ⟨h1, h2⟩ := h
  exact ⟨h1, h2⟩

/-- Value bound of int() on a digit string of at most two characters. -/
theorem digitsToNat_le99 (l : List Char) (hd : l.all Char.isDigit = true)
    (hl : l.length ≤ 2) : digitsToNat l ≤ 99 := by
  rcases l with _ | ⟨c, _ | ⟨d, _ | ⟨e, t⟩⟩⟩
  · simp [digitsToNat]
  · simp only [List.all_cons, List.all_nil, Bool.and_eq_true] at hd
    obtain ⟨b1, b2⟩ := digit_toNat_bounds c hd.1
    simp only [digitsToNat, List.foldl]
    omega
  · simp only [List.all_cons, List.all_nil, Bool.and_eq_true] at hd
    obtain ⟨b1, b2⟩ := digit_toNat_bounds c hd.1
    obtain ⟨b3, b4⟩ := digit_toNat_bounds d hd.2.1
    simp only [digitsToNat, List.foldl]
    omega
  · simp at hl

/-- Capture specification of _parse_ddmmyyyy's three groups: two digit
pairs and a four-digit year. -/
def dateCapSpec : CapSpec := fun n =>
  if n = 1 then some (Char.isDigit, 1, some 2)
  else if n = 2 then some (Char.isDigit, 1, some 2)
  else if n = 3 then some (Char.isDigit, 4, some 4)
  else none

/-- Capture specification shared by _parse_text_date and the signing-date
pattern: a digit day, a month-letter word, a four-digit year. -/
def textCapSpec : CapSpec := fun n =>
  if n = 1 then some (Char.isDigit, 1, some 2)
  else if n = 2 then some (monthLetter, 1, none)
  else if n = 3 then some (Char.isDigit, 4, some 4)
  else none

/-- A bound witness for a some upper bound. -/
theorem hiSide_some (lo v : Nat) (h : lo ≤ v) :
    ∀ h2, (some v : Option Nat) = some h2 → lo ≤ h2 := by
  intro h2 hh2
  have h3 : v = h2 := by injection hh2
  omega

/-- A bound witness for an absent upper bound. -/
theorem hiSide_none (lo : Nat) : ∀ h2, (none : Option Nat) = some h2 → lo ≤ h2 := by
  intro h2 hh2
  exact Option.noConfusion hh2

/-- Case-insensitive literals carry no groups. -/
theorem groupsWF_litI (spec : CapSpec) (s : List Char) : GroupsWF spec (litI s) := by
  induction s with
  | nil => exact trivial
  | cons c cs ihs => exact ⟨trivial, ihs⟩

/-- The numeric date pattern is well-formed for its specification. -/
theorem dateNumG_wf : GroupsWF dateCapSpec dateNumG :=
  ⟨trivial, ⟨Char.isDigit, 1, some 2, false, rfl, hiSide_some 1 2 (by omega), rfl⟩, trivial,
    ⟨Char.isDigit, 1, some 2, false, rfl, hiSide_some 1 2 (by omega), rfl⟩, trivial,
    ⟨Char.isDigit, 4, some 4, false, rfl, hiSide_some 4 4 (by omega), rfl⟩, trivial, trivial⟩

/-- The text date pattern is well-formed for its specification. -/
theorem textDateRE_wf : GroupsWF textCapSpec textDateRE :=
  ⟨trivial, ⟨Char.isDigit, 1, some 2, false, rfl, hiSide_some 1 2 (by omega), rfl⟩, trivial,
    ⟨trivial, trivial⟩, trivial, groupsWF_litI _ _, trivial,
    ⟨monthLetter, 1, none, false, rfl, hiSide_none 1, rfl⟩, trivial,
    ⟨groupsWF_litI _ _, groupsWF_litI _ _⟩, trivial,
    ⟨Char.isDigit, 4, some 4, false, rfl, hiSide_some 4 4 (by omega), rfl⟩, trivial, trivial⟩

/-- The signing-date pattern is well-formed for its specification. -/
theorem signedPat_wf : GroupsWF textCapSpec signedPat :=
  ⟨trivial, ⟨Char.isDigit, 1, some 2, false, rfl, hiSide_some 1 2 (by omega), rfl⟩, trivial,
    trivial, trivial, trivial, trivial, trivial, groupsWF_litI _ _, trivial,
    groupsWF_litI _ _, trivial, groupsWF_litI _ _, trivial,
    ⟨monthLetter, 1, none, false, rfl, hiSide_none 1, rfl⟩, trivial,
    groupsWF_litI _ _, trivial,
    ⟨Char.isDigit, 4, some 4, false, rfl, hiSide_some 4 4 (by omega), rfl⟩, trivial, trivial⟩

/-- Month-table strings are two digit characters. -/
theorem monthsGet_shape (mon mm : List Char) (h : monthsGet mon = some mm) :
    mm.length = 2 ∧ mm.all Char.isDigit = true := by
  unfold monthsGet at h
  rw [Option.map_eq_some'] at h
  obtain ⟨p2, hp, hpe⟩ := h
  have hmem := List.mem_of_find?_eq_some hp
  subst hpe
  have hall : ∀ q ∈ MONTHS, q.2.length = 2 ∧ q.2.all Char.isDigit = true := by decide
  exact hall p2 hmem

/-- Every string returned by _parse_ddmmyyyy has the ISO digit shape. -/
theorem parse_ddmmyyyy_shape (s r : List Char) (h : parse_ddmmyyyy s = some r) :
    isShapeISO r = true := by
  unfold parse_ddmmyyyy at h
  cases hm : research dateNumG s with
  | none =>
    simp only [hm] at h
    exact Option.noConfusion h
  | some m =>
    simp only [hm] at h
    have hres := research_groups s dateCapSpec dateNumG dateNumG_wf m hm
    cases hg1 : grpStr s m.groups 1 with
    | none =>
      simp only [hg1] at h
      exact Option.noConfusion h
    | some dd =>
      cases hg2 : grpStr s m.groups 2 with
      | none =>
        simp only [hg1, hg2] at h
        exact Option.noConfusion h
      | some mm =>
        cases hg3 : grpStr s m.groups 3 with
        | none =>
          simp only [hg1, hg2, hg3] at h
          exact Option.noConfusion h
        | some yy =>
          simp only [hg1, hg2, hg3] at h
          have hr : fmtNumDate yy (digitsToNat mm) (digitsToNat dd) = r := by injection h
          subst hr
          obtain ⟨d1f, d2f, d3f⟩ :=
            group_facts s dateCapSpec m.groups 1 Char.isDigit 1 (some 2) rfl hres.1 dd hg1
          obtain ⟨m1f, m2f, m3f⟩ :=
            group_facts s dateCapSpec m.groups 2 Char.isDigit 1 (some 2) rfl hres.1 mm hg2
          obtain ⟨y1f, y2f, y3f⟩ :=
            group_facts s dateCapSpec m.groups 3 Char.isDigit 4 (some 4) rfl hres.1 yy hg3
          have hyl : yy.length = 4 := by
            have := y3f 4 rfl
            omega
          have hmm : digitsToNat mm ≤ 99 :=
            digitsToNat_le99 mm m1f (by have := m3f 2 rfl; omega)
          have hdd : digitsToNat dd ≤ 99 :=
            digitsToNat_le99 dd d1f (by have := d3f 2 rfl; omega)
          obtain ⟨pa, pb⟩ := pad2_shape (digitsToNat mm) hmm
          obtain ⟨pc, pd⟩ := pad2_shape (digitsToNat dd) hdd
          exact isShapeISO_build yy (pad2 (digitsToNat mm)) (pad2 (digitsToNat dd))
            hyl y1f pa pb pc pd

/-- Every string returned by _parse_text_date has the ISO digit shape. -/
theorem parse_text_date_shape (s r : List Char) (h : parse_text_date s = some r) :
    isShapeISO r = true := by
  unfold parse_text_date at h
  cases hm : research textDateRE s with
  | none =>
    simp only [hm] at h
    exact Option.noConfusion h
  | some m =>
    simp only [hm] at h
    have hres := research_groups s textCapSpec textDateRE textDateRE_wf m hm
    cases hg1 : grpStr s m.groups 1 with
    | none =>
      simp only [hg1] at h
      exact Option.noConfusion h
    | some dd =>
      cases hg2 : grpStr s m.groups 2 with
      | none =>
        simp only [hg1, hg2] at h
        exact Option.noConfusion h
      | some mon =>
        cases hg3 : grpStr s m.groups 3 with
        | none =>
          simp only [hg1, hg2, hg3] at h
          exact Option.noConfusion h
        | some yy =>
          simp only [hg1, hg2, hg3] at h
          cases hmg : monthsGet (pyLowerL mon) with
          | none =>
            simp only [hmg] at h
            exact Option.noConfusion h
          | some mm =>
            simp only [hmg] at h
            have hr : fmtTextDate yy mm (digitsToNat dd) = r := by injection h
            subst hr
            obtain ⟨d1f, d2f, d3f⟩ :=
              group_facts s textCapSpec m.groups 1 Char.isDigit 1 (some 2) rfl hres.1 dd hg1
            obtain ⟨y1f, y2f, y3f⟩ :=
              group_facts s textCapSpec m.groups 3 Char.isDigit 4 (some 4) rfl hres.1 yy hg3
            obtain ⟨mmA, mmB⟩ := monthsGet_shape (pyLowerL mon) mm hmg
            have hyl : yy.length = 4 := by
              have := y3f 4 rfl
              omega
            have hdd : digitsToNat dd ≤ 99 :=
              digitsToNat_le99 dd d1f (by have := d3f 2 rfl; omega)
            obtain ⟨pc, pd⟩ := pad2_shape (digitsToNat dd) hdd
            exact isShapeISO_build yy mm (pad2 (digitsToNat dd)) hyl y1f mmA mmB pc pd

/-- Every string from the explicit numeric start clause has the ISO digit
shape. -/
theorem dates_start3_shape (t r : List Char) (h : dates_start3 t = some r) :
    isShapeISO r = true := by
  unfold dates_start3 at h
  cases hm : research startPat3 t with
  | none =>
    simp only [hm] at h
    exact Option.noConfusion h
  | some m =>
    simp only [hm] at h
    exact parse_ddmmyyyy_shape _ r h

/-- Every string from the explicit numeric end clause has the ISO digit
shape. -/
theorem dates_end3_shape (t r : List Char) (h : dates_end3 t = some r) :
    isShapeISO r = true := by
  unfold dates_end3 at h
  cases hm : research endPat3 t with
  | none =>
    simp only [hm] at h
    exact Option.noConfusion h
  | some m =>
    simp only [hm] at h
    exact parse_ddmmyyyy_shape _ r h

/-- Every string from the signing-date clause has the ISO digit shape. -/
theorem dates_signed_shape (t r : List Char) (h : dates_signed t = some r) :
    isShapeISO r = true := by
  unfold dates_signed at h
  cases hm : research signedPat t with
  | none =>
    simp only [hm] at h
    exact Option.noConfusion h
  | some m =>
    simp only [hm] at h
    have hres := research_groups t textCapSpec signedPat signedPat_wf m hm
    cases hmg : monthsGet (pyLowerL ((grpStr t m.groups 2).getD [])) with
    | none =>
      simp only [hmg] at h
      exact Option.noConfusion h
    | some mm =>
      simp only [hmg] at h
      have hr : fmtTextDate ((grpStr t m.groups 3).getD []) mm
          (digitsToNat ((grpStr t m.groups 1).getD [])) = r := by injection h
      obtain ⟨a1, b1, hm1⟩ := hres.2 1 (by decide)
      obtain ⟨a3, b3, hm3⟩ := hres.2 3 (by decide)
      obtain ⟨ab1, hl1⟩ := grpLookup_isSome_of_mem m.groups 1 a1 b1 hm1
      obtain ⟨ab3, hl3⟩ := grpLookup_isSome_of_mem m.groups 3 a3 b3 hm3
      have hg1 : grpStr t m.groups 1 = some (sliceL t ab1.1 ab1.2) := by
        unfold grpStr
        rw [hl1]
        rfl
      have hg3 : grpStr t m.groups 3 = some (sliceL t ab3.1 ab3.2) := by
        unfold grpStr
        rw [hl3]
        rfl
      rw [hg1, hg3] at hr
      simp only [Option.getD_some] at hr
      subst hr
      obtain ⟨d1f, d2f, d3f⟩ :=
        group_facts t textCapSpec m.groups 1 Char.isDigit 1 (some 2) rfl hres.1 _ hg1
      obtain ⟨y1f, y2f, y3f⟩ :=
        group_facts t textCapSpec m.groups 3 Char.isDigit 4 (some 4) rfl hres.1 _ hg3
      obtain ⟨mmA, mmB⟩ := monthsGet_shape _ mm hmg
      have hyl : (sliceL t ab3.1 ab3.2).length = 4 := by
        have := y3f 4 rfl
        omega
      have hdd : digitsToNat (sliceL t ab1.1 ab1.2) ≤ 99 :=
        digitsToNat_le99 _ d1f (by have := d3f 2 rfl; omega)
      obtain ⟨pc, pd⟩ := pad2_shape _ hdd
      exact isShapeISO_build _ mm (pad2 _) hyl y1f mmA mmB pc pd

/-- No month is longer than 31 days. -/
theorem monthrange_le31 (y m : Nat) : monthrange y m ≤ 31 := by
  unfold monthrange
  split
  · split <;> omega
  · split <;> omega

/-- Field bounds of a date _add_months constructed successfully. -/
theorem add_months_fields (d0 : PyDate) (months : Nat) (r : PyDate)
    (h : add_months d0 months = Except.ok r) :
    r.year ≤ 9999 ∧ r.month ≤ 99 ∧ r.day ≤ 99 := by
  simp only [add_months, date_mk] at h
  split at h
  · split at h
    · split at h
      · rename_i h1 h2 h3
        have h4 : (⟨d0.year + (d0.month - 1 + months) / 12,
            (d0.month - 1 + months) % 12 + 1,
            min d0.day (monthrange (d0.year + (d0.month - 1 + months) / 12)
              ((d0.month - 1 + months) % 12 + 1))⟩ : PyDate) = r := by injection h
        subst h4
        have h5 := monthrange_le31 (d0.year + (d0.month - 1 + months) / 12)
          ((d0.month - 1 + months) % 12 + 1)
        refine ⟨?_, ?_, ?_⟩
        · show d0.year + (d0.month - 1 + months) / 12 ≤ 9999
          omega
        · show (d0.month - 1 + months) % 12 + 1 ≤ 99
          omega
        · show min d0.day (monthrange (d0.year + (d0.month - 1 + months) / 12)
            ((d0.month - 1 + months) % 12 + 1)) ≤ 99
          omega
      · exact Except.noConfusion h
    · exact Except.noConfusion h
  · exact Except.noConfusion h

/-- Every end date computed by the lease-term branch has the ISO digit
shape: the date constructor inside _add_months bounds its fields. -/
theorem dates_term_end_shape (t s r : List Char)
    (h : dates_term_end t s = Except.ok (some r)) : isShapeISO r = true := by
  unfold dates_term_end at h
  cases hm : research plazoPat t with
  | none =>
    simp only [hm] at h
    have h2 : (none : Option (List Char)) = some r := by injection h
    exact Option.noConfusion h2
  | some pm =>
    simp only [hm] at h
    cases hiso : iso_to_date s with
    | error e =>
      simp only [hiso] at h
      exact Except.noConfusion h
    | ok d0 =>
      simp only [hiso] at h
      cases hadd : add_months d0 (term_months t pm) with
      | error e =>
        simp only [hadd] at h
        exact Except.noConfusion h
      | ok d1 =>
        simp only [hadd] at h
        have h2 : some (isoformat d1) = some r := by injection h
        have h3 : isoformat d1 = r := by injection h2
        subst h3
        obtain ⟨b1, b2, b3⟩ := add_months_fields d0 (term_months t pm) d1 hadd
        obtain ⟨p1, p2⟩ := pad4_shape d1.year b1
        obtain ⟨p3, p4⟩ := pad2_shape d1.month b2
        obtain ⟨p5, p6⟩ := pad2_shape d1.day b3
        exact isShapeISO_build (pad4 d1.year) (pad2 d1.month) (pad2 d1.day) p1 p2 p3 p4 p5 p6

/-- Shape soundness of detect_dates: whenever the resolver returns
normally, every non-null bound has the ten-character YYYY-MM-DD digit
shape. -/
theorem detect_dates_shape (text : String) (ss ee : Option (List Char))
    (h : detect_dates text = Except.ok (ss, ee)) :
    (∀ s, ss = some s → isShapeISO s = true) ∧
    (∀ s, ee = some s → isShapeISO s = true) := by
  simp only [detect_dates] at h
  cases h1 : research datesPat1 text.data with
  | some m =>
    simp only [h1] at h
    simp only [Except.ok.injEq, Prod.mk.injEq] at h
    obtain ⟨hss, hee⟩ := h
    constructor
    · intro s hs
      rw [← hss] at hs
      exact parse_ddmmyyyy_shape _ s hs
    · intro s hs
      rw [← hee] at hs
      exact parse_ddmmyyyy_shape _ s hs
  | none =>
    simp only [h1] at h
    cases h2 : research datesPat2 text.data with
    | some m =>
      simp only [h2] at h
      simp only [Except.ok.injEq, Prod.mk.injEq] at h
      obtain ⟨hss, hee⟩ := h
      constructor
      · intro s hs
        rw [← hss] at hs
        cases hpt : parse_text_date ((grpStr text.data m.groups 1).getD []) with
        | some v =>
          simp only [hpt] at hs
          have hv : v = s := by injection hs
          subst hv
          exact parse_text_date_shape _ v hpt
        | none =>
          simp only [hpt] at hs
          exact parse_ddmmyyyy_shape _ s hs
      · intro s hs
        rw [← hee] at hs
        cases hpt : parse_text_date ((grpStr text.data m.groups 2).getD []) with
        | some v =>
          simp only [hpt] at hs
          have hv : v = s := by injection hs
          subst hv
          exact parse_text_date_shape _ v hpt
        | none =>
          simp only [hpt] at hs
          exact parse_ddmmyyyy_shape _ s hs
    | none =>
      simp only [h2] at h
      cases hE : dates_end3 text.data with
      | some e =>
        simp only [hE] at h
        simp only [Except.ok.injEq, Prod.mk.injEq] at h
        obtain ⟨hss, hee⟩ := h
        constructor
        · intro s hs
          rw [← hss] at hs
          cases hS : dates_start3 text.data with
          | some s0 =>
            simp only [hS] at hs
            have hv : s0 = s := by injection hs
            subst hv
            exact dates_start3_shape _ s0 hS
          | none =>
            simp only [hS] at hs
            exact dates_signed_shape _ s hs
        · intro s hs
          rw [← hee] at hs
          have hv : e = s := by injection hs
          subst hv
          exact dates_end3_shape _ e hE
      | none =>
        simp only [hE] at h
        cases hS : dates_start3 text.data with
        | some s0 =>
          simp only [hS] at h
          cases hT : dates_term_end text.data s0 with
          | error er =>
            simp only [hT] at h
            exact Except.noConfusion h
          | ok endv =>
            simp only [hT] at h
            simp only [Except.ok.injEq, Prod.mk.injEq] at h
            obtain ⟨hss, hee⟩ := h
            constructor
            · intro s hs
              rw [← hss] at hs
              have hv : s0 = s := by injection hs
              subst hv
              exact dates_start3_shape _ s0 hS
            · intro s hs
              rw [← hee] at hs
              apply dates_term_end_shape text.data s0 s
              rw [hT, hs]
        | none =>
          simp only [hS] at h
          cases hG : dates_signed text.data with
          | some s0 =>
            simp only [hG] at h
            cases hT : dates_term_end text.data s0 with
            | error er =>
              simp only [hT] at h
              exact Except.noConfusion h
            | ok endv =>
              simp only [hT] at h
              simp only [Except.ok.injEq, Prod.mk.injEq] at h
              obtain ⟨hss, hee⟩ := h
              constructor
              · intro s hs
                rw [← hss] at hs
                have hv : s0 = s := by injection hs
                subst hv
                exact dates_signed_shape _ s0 hG
              · intro s hs
                rw [← hee] at hs
                apply dates_term_end_shape text.data s0 s
                rw [hT, hs]
          | none =>
            simp only [hG] at h
            simp only [Except.ok.injEq, Prod.mk.injEq] at h
            obtain ⟨hss, hee⟩ := h
            constructor
            · intro s hs
              rw [← hss] at hs
              exact Option.noConfusion hs
            · intro s hs
              rw [← hee] at hs
              exact Option.noConfusion hs


/-- C10, counterexample: the date resolver returns 2026-02-31 and
2027-13-31 for a matching but invalid numeric range, and neither string
is a valid ISO-8601 calendar date (February has no day 31; there is no
month 13). -/
theorem C10_counterexample :
    detect_dates ("comenzando el 31/02/2026 y finalizando el 31/13/2027") =
      Except.ok (some (("2026-02-31").data), some (("2027-13-31").data)) ∧
    isValidISO (("2026-02-31").data) = false ∧
    isValidISO (("2027-13-31").data) = false := by
  refine ⟨by decide, by decide, by decide⟩

/-- C10, amended: whenever detect_dates returns normally, every non-null
start or end date string has the ten-character YYYY-MM-DD digit shape
(four digits, hyphen, two digits, hyphen, two digits), but calendar
validity is never checked: the resolver returns shape-correct yet
impossible dates such as 2026-02-31. -/
theorem C10_amended :
    (∀ (text : String) (ss ee : Option (List Char)),
      detect_dates text = Except.ok (ss, ee) →
      (∀ s, ss = some s → isShapeISO s = true) ∧
      (∀ s, ee = some s → isShapeISO s = true)) ∧
    detect_dates ("comenzando el 01/02/2026 y finalizando el 31/01/2028") =
      Except.ok (some (("2026-02-01").data), some (("2028-01-31").data)) ∧
    isValidISO (("2026-02-01").data) = true ∧
    isShapeISO (("2026-02-31").data) = true ∧
    isValidISO (("2026-02-31").data) = false :=
  ⟨detect_dates_shape, by decide, by decide, by decide, by decide⟩

/-- C10, witness: on the matching but calendar-invalid text the resolver
returns two strings, and the universal shape conclusion applies to both
at this concrete output. -/
theorem C10_amended_witness :
    detect_dates ("comenzando el 31/02/2026 y finalizando el 31/13/2027") =
      Except.ok (some (("2026-02-31").data), some (("2027-13-31").data)) ∧
    (∀ s, (some (("2026-02-31").data) : Option (List Char)) = some s →
      isShapeISO s = true) ∧
    (∀ s, (some (("2027-13-31").data) : Option (List Char)) = some s →
      isShapeISO s = true) := by
  have hd : detect_dates ("comenzando el 31/02/2026 y finalizando el 31/13/2027") =
      Except.ok (some (("2026-02-31").data), some (("2027-13-31").data)) := by decide
  have hmain := C10_amended.1 ("comenzando el 31/02/2026 y finalizando el 31/13/2027")
    (some (("2026-02-31").data)) (some (("2027-13-31").data)) hd
  exact ⟨hd, hmain.1, hmain.2⟩

end Proptech
